import Mathlib

/-!
Verification development for the `xfind` crate: forward and backward
substring searchers over byte streams (`src/buffer.rs`, `src/finder.rs`).

Bytes are modelled as `Nat`.  A forward stream (`io::Read`) is modelled as
its full contents plus a read cursor and a script describing how the reader
chunks its data (short reads are valid per the `Read` contract); an empty
script means every read returns as much as fits (a `Cursor`-style reader),
and an exhausted script means the reader reports end of stream.  A backward
stream (`io::Read + io::Seek`) is modelled as contents plus a cursor and a
script of error injections, one entry consumed per I/O operation.
-/

set_option maxRecDepth 20000

deriving instance DecidableEq for Except

namespace XFind

/-- One behaviour of a single `Read::read` call: either an I/O error
carrying an error code, or a cap on the number of bytes this read returns. -/
inductive ReadStep where
  | err (e : Nat)
  | cap (k : Nat)
  deriving DecidableEq, Repr

/-- A forward byte stream: full contents, the read cursor, and the chunking
script.  Each read consumes one script entry; with an empty script a read
returns `min free remaining` bytes (end of stream gives zero bytes). -/
structure FwdStream where
  data : List Nat
  pos : Nat
  script : List ReadStep
  deriving DecidableEq, Repr

/-- One `read` call with a destination of size `free`: returns the bytes
read (at most `free`) and the advanced stream. -/
def FwdStream.read (s : FwdStream) (free : Nat) : Except Nat (List Nat) × FwdStream :=
  match s.script with
  | .err e :: rest => (.error e, { s with script := rest })
  | .cap k :: rest =>
      let n := min k (min free (s.data.length - s.pos))
      (.ok ((s.data.drop s.pos).take n), { s with pos := s.pos + n, script := rest })
  | [] =>
      let n := min free (s.data.length - s.pos)
      (.ok ((s.data.drop s.pos).take n), { s with pos := s.pos + n })

/-- Mirrors `Buffer` (src/buffer.rs): a fixed-size storage as a list whose
length is the capacity, the minimum length `min`, and the content end
`endPos` (the source field `end`, renamed because `end` is a Lean keyword). -/
structure Buffer where
  buf : List Nat
  min : Nat
  endPos : Nat
  deriving DecidableEq, Repr

/-- Mirrors `DEFAULT_BUFFER_CAPACITY = 8 * (1 << 10)`. -/
def DEFAULT_BUFFER_CAPACITY : Nat := 8 * (1 <<< 10)

/-- Mirrors `Buffer::new`. -/
def Buffer.new (minBufferLen : Nat) : Buffer :=
  let m := max 1 minBufferLen
  let capacity := max (m * 8) DEFAULT_BUFFER_CAPACITY
  { buf := List.replicate capacity 0, min := m, endPos := 0 }

/-- Mirrors `Buffer::buffer`: the contents `&buf[..end]`. -/
def Buffer.buffer (b : Buffer) : List Nat := b.buf.take b.endPos

/-- Mirrors `Buffer::len`. -/
def Buffer.len (b : Buffer) : Nat := b.endPos

/-- Mirrors `Buffer::min_buffer_len`. -/
def Buffer.minBufferLen (b : Buffer) : Nat := b.min

/-- Writing `chunk` into the free region `&buf[end..]` (the effect of a
successful `read` into `free_buffer()`), extending `end` by the number of
bytes read. -/
def Buffer.write (b : Buffer) (chunk : List Nat) : Buffer :=
  { b with
    buf := b.buf.take b.endPos ++ chunk ++ b.buf.drop (b.endPos + chunk.length),
    endPos := b.endPos + chunk.length }

/-- Mirrors the loop of `Buffer::fill`, with explicit fuel (the loop
terminates because every continued iteration consumes a script entry or
advances the cursor).  Besides the source's `io::Result<bool>` and the
mutated buffer and stream, it returns a ghost log of the byte counts of the
completed reads, used only to state how the loop stopped. -/
def Buffer.fillAux : Nat → Buffer → FwdStream → Bool →
    Except Nat Bool × Buffer × FwdStream × List Nat
  | 0, b, s, readany => (.ok readany, b, s, [])
  | fuel + 1, b, s, readany =>
    match s.read (b.buf.length - b.endPos) with
    | (.error e, s') => (.error e, b, s', [])
    | (.ok chunk, s') =>
      if chunk.length = 0 then (.ok readany, b, s', [0])
      else
        let b' := b.write chunk
        if b.min ≤ b'.endPos then (.ok true, b', s', [chunk.length])
        else
          let r := Buffer.fillAux fuel b' s' true
          (r.1, r.2.1, r.2.2.1, chunk.length :: r.2.2.2)

/-- Mirrors `Buffer::fill` (the canonical fuel always suffices). -/
def Buffer.fill (b : Buffer) (s : FwdStream) :
    Except Nat Bool × Buffer × FwdStream × List Nat :=
  Buffer.fillAux (s.script.length + (s.data.length - s.pos) + 1) b s false

/-- Mirrors `Buffer::roll`: copies the last `min` bytes of the contents to
the front of storage and sets `end = min`.  The source `expect`s the
precondition `min <= end`; all callers guard it. -/
def Buffer.roll (b : Buffer) : Buffer :=
  let s := (b.buf.take b.endPos).drop (b.endPos - b.min)
  { b with buf := s ++ b.buf.drop s.length, endPos := b.min }

/-- Mirrors `memchr::memmem::find` (the external exact-match collaborator):
index of the first occurrence of `needle` in `hay`; an empty needle matches
at index 0. -/
def memmemFind (needle : List Nat) : List Nat → Option Nat :=
  go 0
where
  /-- Walks the haystack left to right, returning the first index whose
  suffix starts with the needle. -/
  go : Nat → List Nat → Option Nat
    | i, [] => if needle = [] then some i else none
    | i, a :: rest =>
      if needle.isPrefixOf (a :: rest) then some i else go (i + 1) rest

/-- Mirrors `memchr::memmem::rfind`: index of the last occurrence of
`needle` in `hay`; an empty needle matches at index `hay.length`. -/
def memmemRfind (needle : List Nat) : List Nat → Option Nat :=
  go 0 none
where
  /-- Walks the haystack left to right keeping the latest index whose
  suffix starts with the needle. -/
  go : Nat → Option Nat → List Nat → Option Nat
    | i, acc, [] => if needle = [] then some i else acc
    | i, acc, a :: rest =>
      go (i + 1) (if needle.isPrefixOf (a :: rest) then some i else acc) rest

/-- Mirrors the state of `FindIter` (src/finder.rs): reader, needle,
buffer, and the three cursor fields.  The source also holds a field
`is_tail_match`, initialized to `false` and never read or written again;
it is carried here unchanged for fidelity. -/
structure FindIterS where
  rdr : FwdStream
  needle : List Nat
  buf : Buffer
  searchPos : Nat
  streamPos : Nat
  reportPos : Nat
  isTailMatch : Bool
  deriving DecidableEq, Repr

/-- Mirrors `FindIter::new_with_needle` (and `FindIter::new`, which builds
the identical state from a `StreamFinder`). -/
def FindIterS.new (rdr : FwdStream) (needle : List Nat) : FindIterS :=
  { rdr := rdr, needle := needle, buf := Buffer.new needle.length,
    searchPos := 0, streamPos := 0, reportPos := 0, isTailMatch := false }

/-- The no-match arm of the scan step of `FindIter::next`: when the window
has unscanned content but no occurrence, `stream_pos` and `search_pos`
advance past the whole window. -/
def FindIterS.consume (st : FindIterS) : FindIterS :=
  if st.searchPos < st.buf.len then
    { st with streamPos := st.streamPos + (st.buf.len - st.searchPos),
              searchPos := st.buf.len }
  else st

/-- The roll step of `FindIter::next`: when the window holds at least
`min` bytes it is rolled, and the retained suffix is compared against the
needle to decide whether to skip it (`search_pos = min`) or rescan it
(`stream_pos -= min`, `search_pos = 0`). -/
def FindIterS.rollStep (st : FindIterS) : FindIterS :=
  if st.buf.minBufferLen ≤ st.buf.len then
    let b := st.buf.roll
    if b.buffer.take b.minBufferLen = st.needle then
      { st with buf := b, searchPos := b.minBufferLen }
    else
      { st with buf := b, streamPos := st.streamPos - b.minBufferLen, searchPos := 0 }
  else st

/-- Mirrors the loop of `<FindIter as Iterator>::next`, with explicit fuel
(every continued iteration had a `fill` that read at least one byte, which
consumes a script entry or advances the cursor). -/
def FindIterS.nextAux : Nat → FindIterS → Option (Except Nat Nat) × FindIterS
  | 0, st => (none, st)
  | fuel + 1, st =>
    match (if st.searchPos < st.buf.len then
             memmemFind st.needle (st.buf.buffer.drop st.searchPos)
           else none) with
    | some mat =>
      (some (.ok (st.streamPos + mat)),
       { st with
         reportPos := st.streamPos + mat,
         streamPos := st.streamPos + mat + st.needle.length,
         searchPos := st.searchPos + mat + st.needle.length })
    | none =>
      let st2 := st.consume.rollStep
      match Buffer.fill st2.buf st2.rdr with
      | (.error e, b', s', _) => (some (.error e), { st2 with buf := b', rdr := s' })
      | (.ok false, b', s', _) => (none, { st2 with buf := b', rdr := s' })
      | (.ok true, b', s', _) => FindIterS.nextAux fuel { st2 with buf := b', rdr := s' }

/-- One call of `FindIter::next` (the canonical fuel always suffices). -/
def FindIterS.next (st : FindIterS) : Option (Except Nat Nat) × FindIterS :=
  FindIterS.nextAux (st.rdr.script.length + (st.rdr.data.length - st.rdr.pos) + 2) st

/-- The sequence of items produced by repeatedly calling `next` until it
returns `None`, i.e. what collecting the iterator observes; `n` bounds the
number of calls. -/
def itemsF : Nat → FindIterS → List (Except Nat Nat)
  | 0, _ => []
  | n + 1, st =>
    match FindIterS.next st with
    | (some x, st') => x :: itemsF n st'
    | (none, _) => []

/-- Mirrors `find` (src/finder.rs): build the forward iterator and take one
item. -/
def find (needle : List Nat) (rdr : FwdStream) : Option (Except Nat Nat) :=
  (FindIterS.next (FindIterS.new rdr needle)).1

/-- A backward (seekable) byte stream: full contents, the cursor, and a
script of error injections.  Each I/O operation (a seek or a
`read_exact`) consumes one entry; `some e` makes that operation fail with
error `e`, `none` (or an exhausted script) lets it proceed. -/
structure BwdStream where
  data : List Nat
  pos : Nat
  ops : List (Option Nat)
  deriving DecidableEq, Repr

/-- Consume one error-injection entry. -/
def BwdStream.op (s : BwdStream) : Option Nat × BwdStream :=
  match s.ops with
  | o :: rest => (o, { s with ops := rest })
  | [] => (none, s)

/-- Mirrors `Seek::seek(SeekFrom::Start(p))` for an in-memory stream: sets
the cursor, or fails if an error is injected. -/
def BwdStream.seekTo (s : BwdStream) (p : Nat) : Except Nat Unit × BwdStream :=
  match s.op with
  | (some e, s') => (.error e, s')
  | (none, s') => (.ok (), { s' with pos := p })

/-- Mirrors `BufferRev` (src/buffer.rs): right-aligned contents occupying
`buf[capacity - end .. capacity]`. -/
structure BufferRev where
  buf : List Nat
  min : Nat
  endPos : Nat
  deriving DecidableEq, Repr

/-- Mirrors `BufferRev::new` (identical sizing policy to `Buffer::new`). -/
def BufferRev.new (minBufferLen : Nat) : BufferRev :=
  let m := max 1 minBufferLen
  let capacity := max (m * 8) DEFAULT_BUFFER_CAPACITY
  { buf := List.replicate capacity 0, min := m, endPos := 0 }

/-- Mirrors `BufferRev::capacity` (= the fixed allocation size). -/
def BufferRev.capacity (b : BufferRev) : Nat := b.buf.length

/-- Mirrors `BufferRev::buffer`: `&buf[capacity - end ..]`. -/
def BufferRev.buffer (b : BufferRev) : List Nat := b.buf.drop (b.buf.length - b.endPos)

/-- Mirrors `BufferRev::len`. -/
def BufferRev.len (b : BufferRev) : Nat := b.endPos

/-- Mirrors `BufferRev::min_buffer_len`. -/
def BufferRev.minBufferLen (b : BufferRev) : Nat := b.min

/-- Writing a full chunk of `amount` bytes into
`free_buffer()[free_len - amount ..]`, i.e. at `buf[capacity - end -
amount .. capacity - end]`, and extending `end` (the success case of
`fill_exact`). -/
def BufferRev.write (b : BufferRev) (chunk : List Nat) : BufferRev :=
  { b with
    buf := b.buf.take (b.buf.length - b.endPos - chunk.length) ++ chunk ++
           b.buf.drop (b.buf.length - b.endPos),
    endPos := b.endPos + chunk.length }

/-- The partial write done by a failed `read_exact`: the bytes that could
be read land at the start of the target slice
`buf[capacity - end - amount ..]`, but `end` is not extended, so the
visible contents are untouched. -/
def BufferRev.writeLow (b : BufferRev) (amount : Nat) (got : List Nat) : BufferRev :=
  { b with
    buf := b.buf.take (b.buf.length - b.endPos - amount) ++ got ++
           b.buf.drop (b.buf.length - b.endPos - amount + got.length) }

/-- Mirrors `BufferRev::fill_exact`, with the behaviour of
`Read::read_exact` on an in-memory stream inlined: if `amount` bytes
remain it succeeds, otherwise it consumes the remainder and reports
`UnexpectedEof`, which `fill_exact` maps to `Ok(false)`.  An injected
error is propagated. -/
def BufferRev.fillExact (b : BufferRev) (s : BwdStream) (amount : Nat) :
    Except Nat Bool × BufferRev × BwdStream :=
  match s.op with
  | (some e, s') => (.error e, b, s')
  | (none, s') =>
    if amount ≤ s'.data.length - s'.pos then
      (.ok true, b.write ((s'.data.drop s'.pos).take amount),
       { s' with pos := s'.pos + amount })
    else
      (.ok false,
       b.writeLow amount ((s'.data.drop s'.pos).take (s'.data.length - s'.pos)),
       { s' with pos := s'.data.length })

/-- Mirrors `BufferRev::roll_right`: copies the first `min` bytes of the
contents to the tail of storage and sets `end = min`.  The source
`expect`s the precondition `min <= end`; all callers guard it. -/
def BufferRev.rollRight (b : BufferRev) : BufferRev :=
  let s := (b.buf.drop (b.buf.length - b.endPos)).take b.min
  { b with buf := b.buf.take (b.buf.length - s.length) ++ s, endPos := b.min }

/-- Mirrors the state of `FindRevIter` (src/finder.rs). -/
structure FindRevIterS where
  rdr : BwdStream
  needle : List Nat
  buf : BufferRev
  searchPos : Nat
  streamPos : Nat
  reportPos : Nat
  seekPos : Nat
  streamLen : Nat
  deriving DecidableEq, Repr

/-- Mirrors `FindRevIter::new_with_needle` (and `FindRevIter::new`): seeks
to `SeekFrom::End(0)` — which can fail — to capture the stream length.
The source's `assert!(stream_len <= usize::MAX as u64)` is vacuous over
`Nat`. -/
def FindRevIterS.new (rdr : BwdStream) (needle : List Nat) : Except Nat FindRevIterS :=
  match rdr.op with
  | (some e, _) => .error e
  | (none, s') =>
    let streamLen := s'.data.length
    .ok { rdr := { s' with pos := streamLen }, needle := needle,
          buf := BufferRev.new needle.length,
          searchPos := 0, streamPos := streamLen, reportPos := 0,
          seekPos := streamLen, streamLen := streamLen }

/-- The no-match arm of the scan step of `FindRevIter::next`:
`stream_pos` saturating-decreases past the unscanned region and
`search_pos` marks everything scanned. -/
def FindRevIterS.consume (st : FindRevIterS) : FindRevIterS :=
  if st.searchPos < st.buf.len then
    { st with streamPos := st.streamPos - (st.buf.len - st.searchPos),
              searchPos := st.buf.len }
  else st

/-- The roll step of `FindRevIter::next`: roll-right when the window holds
at least `min` bytes, then compare the retained prefix (now the whole
contents) against the needle to decide skipping versus rescanning. -/
def FindRevIterS.rollStep (st : FindRevIterS) : FindRevIterS :=
  if st.buf.minBufferLen ≤ st.buf.len then
    let b := st.buf.rollRight
    if b.buffer.drop (b.len - b.minBufferLen) = st.needle then
      { st with buf := b, searchPos := b.minBufferLen }
    else
      { st with buf := b, streamPos := st.streamPos + b.minBufferLen, searchPos := 0 }
  else st

/-- Mirrors the loop of `<FindRevIter as Iterator>::next`, with explicit
fuel.  The two `eprintln!` debugging blocks in the source (keyed to literal
report offsets) only print and change no state, so they have no model.
The `if self.stream_len > self.buf.capacity() && self.seek_pos == 0`
branch is the source's literal end-of-stream correction that returns
`report_pos + needle.len()`.  `usize` subtractions are modelled by
truncated `Nat` subtraction; `stream_pos.saturating_sub` is the same
operation in the source. -/
def FindRevIterS.nextAux : Nat → FindRevIterS → Option (Except Nat Nat) × FindRevIterS
  | 0, st => (none, st)
  | fuel + 1, st =>
    match (if st.searchPos < st.buf.len then
             memmemRfind st.needle (st.buf.buffer.take (st.buf.len - st.searchPos))
           else none) with
    | some mat =>
      let d := st.buf.len - st.searchPos - mat
      let report := st.streamPos - d
      let st' := { st with reportPos := report, streamPos := st.streamPos - d,
                           searchPos := st.searchPos + d }
      if st.buf.capacity < st.streamLen ∧ st.seekPos = 0 then
        (some (.ok (report + st.needle.length)), st')
      else
        (some (.ok report), st')
    | none =>
      let st1 := st.consume
      if st1.seekPos = 0 then (none, st1)
      else
        let st2 := st1.rollStep
        let freeLen := st2.buf.capacity - st2.buf.len
        let amtSeek :=
          if freeLen < st2.streamPos then (freeLen, st2.seekPos - freeLen)
          else (st2.streamPos, (0 : Nat))
        let st3 := { st2 with seekPos := amtSeek.2 }
        match st3.rdr.seekTo amtSeek.2 with
        | (.error e, s') => (some (.error e), { st3 with rdr := s' })
        | (.ok _, s') =>
          match BufferRev.fillExact st3.buf s' amtSeek.1 with
          | (.error e, b', s'') => (some (.error e), { st3 with buf := b', rdr := s'' })
          | (.ok false, b', s'') => (none, { st3 with buf := b', rdr := s'' })
          | (.ok true, b', s'') =>
            FindRevIterS.nextAux fuel { st3 with buf := b', rdr := s'' }

/-- One call of `FindRevIter::next` (the canonical fuel always suffices:
every continued iteration shrinks the unread prefix). -/
def FindRevIterS.next (st : FindRevIterS) : Option (Except Nat Nat) × FindRevIterS :=
  FindRevIterS.nextAux (st.seekPos + 4) st

/-- The sequence of items produced by the backward iterator; `n` bounds
the number of `next` calls. -/
def itemsR : Nat → FindRevIterS → List (Except Nat Nat)
  | 0, _ => []
  | n + 1, st =>
    match FindRevIterS.next st with
    | (some x, st') => x :: itemsR n st'
    | (none, _) => []

/-- Mirrors `rfind` (src/finder.rs): build the backward iterator — whose
construction can fail — and take one item, mapping a construction failure
to a single error item. -/
def rfind (needle : List Nat) (rdr : BwdStream) : Option (Except Nat Nat) :=
  match FindRevIterS.new rdr needle with
  | .ok it => (FindRevIterS.next it).1
  | .error e => some (.error e)

/-- Modelled from the spec: the reference non-overlapping left-to-right
in-memory search (section 8's `reference_all_matches`): repeatedly find
the first occurrence at or after the cursor and advance past the matched
region.  Fuel bounds the recursion; `hay.length + 1` steps always suffice
for a nonempty needle. -/
def refFrom (needle hay : List Nat) : Nat → Nat → List Nat
  | 0, _ => []
  | fuel + 1, i =>
    match memmemFind needle (hay.drop i) with
    | none => []
    | some m => (i + m) :: refFrom needle hay fuel (i + m + needle.length)

/-- Modelled from the spec: all matches of the reference non-overlapping
left-to-right search. -/
def refAllMatches (needle hay : List Nat) : List Nat :=
  refFrom needle hay (hay.length + 1) 0

/-!
A view layer for computing with the machines: a buffer is abstracted to
its capacity, its visible contents and `min`; the bytes of the free region
are never observable.  Each operation of the model has a view counterpart
and a refinement lemma, proved under the storage well-formedness invariant
`endPos ≤ buf.length`.  Concrete runs are computed on the view machine.
-/

/-- Storage well-formedness for `Buffer`: the content end lies inside the
storage. -/
def Buffer.WF (b : Buffer) : Prop := b.endPos ≤ b.buf.length

instance (b : Buffer) : Decidable b.WF := by unfold Buffer.WF; infer_instance

/-- The view of a forward buffer: capacity, visible contents, `min`. -/
structure BufView where
  cap : Nat
  cont : List Nat
  min : Nat
  deriving DecidableEq, Repr

/-- View abstraction for `Buffer`. -/
def Buffer.view (b : Buffer) : BufView := ⟨b.buf.length, b.buffer, b.min⟩

/-- View counterpart of `Buffer.write`. -/
def BufView.write (v : BufView) (chunk : List Nat) : BufView :=
  { v with cont := v.cont ++ chunk }

/-- View counterpart of `Buffer.fillAux`. -/
def BufView.fillAux : Nat → BufView → FwdStream → Bool →
    Except Nat Bool × BufView × FwdStream × List Nat
  | 0, v, s, readany => (.ok readany, v, s, [])
  | fuel + 1, v, s, readany =>
    match s.read (v.cap - v.cont.length) with
    | (.error e, s') => (.error e, v, s', [])
    | (.ok chunk, s') =>
      if chunk.length = 0 then (.ok readany, v, s', [0])
      else
        let v' := v.write chunk
        if v.min ≤ v'.cont.length then (.ok true, v', s', [chunk.length])
        else
          let r := BufView.fillAux fuel v' s' true
          (r.1, r.2.1, r.2.2.1, chunk.length :: r.2.2.2)

/-- View counterpart of `Buffer.roll`. -/
def BufView.roll (v : BufView) : BufView :=
  { v with cont := v.cont.drop (v.cont.length - v.min) }

/-- Under well-formedness, the visible contents have length `endPos`. -/
theorem Buffer.length_buffer (b : Buffer) (h : b.WF) : b.buffer.length = b.endPos := by
  simp only [Buffer.WF] at h
  simp only [Buffer.buffer, List.length_take]
  omega

/-- A successful read returns at most `free` bytes and only advances the
cursor. -/
theorem FwdStream.read_ok (s : FwdStream) (free : Nat) (c : List Nat) (s' : FwdStream)
    (h : s.read free = (.ok c, s')) :
    c.length ≤ free ∧ s'.data = s.data ∧ s'.pos = s.pos + c.length := by
  unfold FwdStream.read at h
  rcases hs : s.script with _ | ⟨step, rest⟩ <;> simp only [hs] at h
  · rw [Prod.mk.injEq] at h
    obtain ⟨h1, h2⟩ := h
    rw [Except.ok.injEq] at h1
    subst h1 h2
    refine ⟨?_, rfl, ?_⟩ <;> simp only [List.length_take, List.length_drop] <;> omega
  · cases step with
    | err e =>
      rw [Prod.mk.injEq] at h
      exact absurd h.1 (by simp)
    | cap k =>
      rw [Prod.mk.injEq] at h
      obtain ⟨h1, h2⟩ := h
      rw [Except.ok.injEq] at h1
      subst h1 h2
      refine ⟨?_, rfl, ?_⟩ <;> simp only [List.length_take, List.length_drop] <;> omega

/-- Refinement of `Buffer.write` by `BufView.write`. -/
theorem Buffer.write_view (b : Buffer) (chunk : List Nat) (h : b.WF)
    (hc : chunk.length ≤ b.buf.length - b.endPos) :
    (b.write chunk).view = b.view.write chunk ∧ (b.write chunk).WF := by
  have h' : b.endPos ≤ b.buf.length := h
  have hlen : (b.write chunk).buf.length = b.buf.length := by
    simp only [Buffer.write, List.length_append, List.length_take, List.length_drop]
    omega
  have hbuffer : (b.write chunk).buffer = b.buffer ++ chunk := by
    simp only [Buffer.write, Buffer.buffer]
    rw [List.take_left']
    simp only [List.length_append, List.length_take]
    omega
  refine ⟨?_, ?_⟩
  · show (⟨_, _, _⟩ : BufView) = _
    rw [hlen, hbuffer]
    simp only [Buffer.write, Buffer.view, BufView.write]
  · show (b.write chunk).endPos ≤ (b.write chunk).buf.length
    rw [hlen]
    simp only [Buffer.write]
    omega

/-- Refinement of `Buffer.fillAux` by `BufView.fillAux`. -/
theorem Buffer.fillAux_view (fuel : Nat) (b : Buffer) (s : FwdStream) (ra : Bool)
    (h : b.WF) :
    BufView.fillAux fuel b.view s ra =
      ((Buffer.fillAux fuel b s ra).1, (Buffer.fillAux fuel b s ra).2.1.view,
        (Buffer.fillAux fuel b s ra).2.2.1, (Buffer.fillAux fuel b s ra).2.2.2) ∧
      (Buffer.fillAux fuel b s ra).2.1.WF := by
  induction fuel generalizing b s ra with
  | zero => exact ⟨rfl, h⟩
  | succ fuel ih =>
    have hfree : b.view.cap - b.view.cont.length = b.buf.length - b.endPos := by
      show b.buf.length - b.buffer.length = _
      rw [Buffer.length_buffer b h]
    rw [BufView.fillAux, Buffer.fillAux, hfree]
    rcases hr : s.read (b.buf.length - b.endPos) with ⟨res, s'⟩
    cases res with
    | error e => exact ⟨rfl, h⟩
    | ok chunk =>
      obtain ⟨hc, -, -⟩ := FwdStream.read_ok s _ chunk s' hr
      simp only
      by_cases h0 : chunk.length = 0
      · rw [if_pos h0, if_pos h0]
        exact ⟨rfl, h⟩
      · rw [if_neg h0, if_neg h0]
        obtain ⟨hwv, hwwf⟩ := Buffer.write_view b chunk h hc
        have hwlen : (b.view.write chunk).cont.length = (b.write chunk).endPos := by
          rw [← hwv]
          exact Buffer.length_buffer _ hwwf
        by_cases hm : b.min ≤ (b.write chunk).endPos
        · have hm' : b.view.min ≤ (b.view.write chunk).cont.length := by
            rw [hwlen]; exact hm
          rw [if_pos hm', if_pos hm, hwv]
          exact ⟨rfl, hwwf⟩
        · have hm' : ¬ b.view.min ≤ (b.view.write chunk).cont.length := by
            rw [hwlen]; exact hm
          rw [if_neg hm', if_neg hm]
          obtain ⟨hrec, hrecwf⟩ := ih (b.write chunk) s' true hwwf
          rw [← hwv, hrec]
          exact ⟨rfl, hrecwf⟩

/-- Refinement of `Buffer.roll` by `BufView.roll`, under the roll
precondition. -/
theorem Buffer.roll_view (b : Buffer) (h : b.WF) (hm : b.min ≤ b.endPos) :
    (Buffer.roll b).view = b.view.roll ∧ (Buffer.roll b).WF := by
  have h' : b.endPos ≤ b.buf.length := h
  have hs : ((b.buf.take b.endPos).drop (b.endPos - b.min)).length = b.min := by
    simp only [List.length_drop, List.length_take]
    omega
  have hlen : (Buffer.roll b).buf.length = b.buf.length := by
    simp only [Buffer.roll, List.length_append, List.length_drop, hs]
    omega
  have hbuffer : (Buffer.roll b).buffer = b.buffer.drop (b.buffer.length - b.min) := by
    simp only [Buffer.roll, Buffer.buffer, Buffer.length_buffer b h]
    rw [List.take_left' hs]
    congr 1
    simp only [List.length_take]
    omega
  refine ⟨?_, ?_⟩
  · show (⟨_, _, _⟩ : BufView) = _
    rw [hlen, hbuffer]
    simp only [Buffer.roll, Buffer.view, BufView.roll]
  · show (Buffer.roll b).endPos ≤ (Buffer.roll b).buf.length
    rw [hlen]
    simp only [Buffer.roll]
    omega

/-- View of the forward iterator state. -/
structure FindIterV where
  rdr : FwdStream
  needle : List Nat
  buf : BufView
  searchPos : Nat
  streamPos : Nat
  reportPos : Nat
  isTailMatch : Bool
  deriving DecidableEq, Repr

/-- View abstraction for `FindIterS`. -/
def FindIterS.view (st : FindIterS) : FindIterV :=
  ⟨st.rdr, st.needle, st.buf.view, st.searchPos, st.streamPos, st.reportPos, st.isTailMatch⟩

/-- View counterpart of `Buffer.fill`. -/
def BufView.fill (v : BufView) (s : FwdStream) :
    Except Nat Bool × BufView × FwdStream × List Nat :=
  BufView.fillAux (s.script.length + (s.data.length - s.pos) + 1) v s false

/-- View counterpart of `FindIterS.consume`. -/
def FindIterV.consume (st : FindIterV) : FindIterV :=
  if st.searchPos < st.buf.cont.length then
    { st with streamPos := st.streamPos + (st.buf.cont.length - st.searchPos),
              searchPos := st.buf.cont.length }
  else st

/-- View counterpart of `FindIterS.rollStep`. -/
def FindIterV.rollStep (st : FindIterV) : FindIterV :=
  if st.buf.min ≤ st.buf.cont.length then
    let b := st.buf.roll
    if b.cont.take b.min = st.needle then
      { st with buf := b, searchPos := b.min }
    else
      { st with buf := b, streamPos := st.streamPos - b.min, searchPos := 0 }
  else st

/-- View counterpart of `FindIterS.nextAux`. -/
def FindIterV.nextAux : Nat → FindIterV → Option (Except Nat Nat) × FindIterV
  | 0, st => (none, st)
  | fuel + 1, st =>
    match (if st.searchPos < st.buf.cont.length then
             memmemFind st.needle (st.buf.cont.drop st.searchPos)
           else none) with
    | some mat =>
      (some (.ok (st.streamPos + mat)),
       { st with
         reportPos := st.streamPos + mat,
         streamPos := st.streamPos + mat + st.needle.length,
         searchPos := st.searchPos + mat + st.needle.length })
    | none =>
      let st2 := st.consume.rollStep
      match BufView.fill st2.buf st2.rdr with
      | (.error e, b', s', _) => (some (.error e), { st2 with buf := b', rdr := s' })
      | (.ok false, b', s', _) => (none, { st2 with buf := b', rdr := s' })
      | (.ok true, b', s', _) => FindIterV.nextAux fuel { st2 with buf := b', rdr := s' }

/-- View counterpart of `FindIterS.next`. -/
def FindIterV.next (st : FindIterV) : Option (Except Nat Nat) × FindIterV :=
  FindIterV.nextAux (st.rdr.script.length + (st.rdr.data.length - st.rdr.pos) + 2) st

/-- View counterpart of `itemsF`. -/
def vitemsF : Nat → FindIterV → List (Except Nat Nat)
  | 0, _ => []
  | n + 1, st =>
    match FindIterV.next st with
    | (some x, st') => x :: vitemsF n st'
    | (none, _) => []

/-- View projections of `Buffer.view` (definitional). -/
theorem Buffer.view_cont (b : Buffer) : b.view.cont = b.buffer := rfl

/-- Refinement of `Buffer.fill` by `BufView.fill`. -/
theorem Buffer.fill_view (b : Buffer) (s : FwdStream) (h : b.WF) :
    BufView.fill b.view s =
      ((Buffer.fill b s).1, (Buffer.fill b s).2.1.view,
        (Buffer.fill b s).2.2.1, (Buffer.fill b s).2.2.2) ∧
      (Buffer.fill b s).2.1.WF :=
  Buffer.fillAux_view _ b s false h

/-- Refinement of `FindIterS.consume` by `FindIterV.consume`: views
commute, well-formedness is preserved, and the buffer and reader are
untouched. -/
theorem FindIterS.consume_view (st : FindIterS) (h : st.buf.WF) :
    st.consume.view = st.view.consume ∧ st.consume.buf = st.buf ∧
      st.consume.rdr = st.rdr := by
  obtain ⟨rdr, needle, buf, sp, stp, rp, itm⟩ := st
  have hlen : buf.view.cont.length = buf.len := Buffer.length_buffer buf h
  simp only [FindIterS.consume, FindIterV.consume, FindIterS.view, hlen]
  by_cases hc : sp < buf.len
  · rw [if_pos hc, if_pos hc]
    exact ⟨rfl, rfl, rfl⟩
  · rw [if_neg hc, if_neg hc]
    exact ⟨rfl, rfl, rfl⟩

/-- Refinement of `FindIterS.rollStep` by `FindIterV.rollStep`. -/
theorem FindIterS.rollStep_view (st : FindIterS) (h : st.buf.WF) :
    st.rollStep.view = st.view.rollStep ∧ st.rollStep.buf.WF ∧
      st.rollStep.rdr = st.rdr := by
  obtain ⟨rdr, needle, buf, sp, stp, rp, itm⟩ := st
  have hlen : buf.view.cont.length = buf.len := Buffer.length_buffer buf h
  simp only [FindIterS.rollStep, FindIterV.rollStep, FindIterS.view, hlen]
  have hmin : buf.view.min = buf.minBufferLen := rfl
  rw [hmin]
  by_cases hc : buf.minBufferLen ≤ buf.len
  · rw [if_pos hc, if_pos hc]
    obtain ⟨hrv, hrwf⟩ := Buffer.roll_view buf h hc
    simp only [← hrv, Buffer.view_cont]
    have hrmin : buf.roll.view.min = buf.roll.minBufferLen := rfl
    rw [hrmin]
    by_cases he : buf.roll.buffer.take buf.roll.minBufferLen = needle
    · rw [if_pos he, if_pos he]
      exact ⟨rfl, hrwf, rfl⟩
    · rw [if_neg he, if_neg he]
      exact ⟨rfl, hrwf, rfl⟩
  · rw [if_neg hc, if_neg hc]
    exact ⟨rfl, h, rfl⟩

/-- Refinement of `FindIterS.nextAux` by `FindIterV.nextAux`. -/
theorem FindIterS.nextAux_view (fuel : Nat) (st : FindIterS) (h : st.buf.WF) :
    FindIterV.nextAux fuel st.view =
      ((FindIterS.nextAux fuel st).1, (FindIterS.nextAux fuel st).2.view) ∧
      (FindIterS.nextAux fuel st).2.buf.WF := by
  induction fuel generalizing st with
  | zero => exact ⟨rfl, h⟩
  | succ fuel ih =>
    rw [FindIterV.nextAux, FindIterS.nextAux]
    have hlen : st.view.buf.cont.length = st.buf.len := Buffer.length_buffer st.buf h
    have hsp : st.view.searchPos = st.searchPos := rfl
    have hneedle : st.view.needle = st.needle := rfl
    have hstp : st.view.streamPos = st.streamPos := rfl
    have hcont : st.view.buf.cont = st.buf.buffer := rfl
    rw [hlen, hsp, hneedle, hstp, hcont]
    rcases hm : (if st.searchPos < st.buf.len then
        memmemFind st.needle (st.buf.buffer.drop st.searchPos) else none) with - | mat
    · -- no match: consume the window, roll, refill
      simp only
      obtain ⟨hc1, hc2, hc3⟩ := FindIterS.consume_view st h
      have hcwf : st.consume.buf.WF := hc2 ▸ h
      obtain ⟨hr1, hr2, hr3⟩ := FindIterS.rollStep_view st.consume hcwf
      rw [← hc1, ← hr1]
      have hbuf : st.consume.rollStep.view.buf = st.consume.rollStep.buf.view := rfl
      have hrdr : st.consume.rollStep.view.rdr = st.consume.rollStep.rdr := rfl
      rw [hbuf, hrdr]
      obtain ⟨hf1, hf2⟩ :=
        Buffer.fill_view st.consume.rollStep.buf st.consume.rollStep.rdr hr2
      rw [hf1]
      rcases hfr : Buffer.fill st.consume.rollStep.buf st.consume.rollStep.rdr
        with ⟨res, b', s', log⟩
      have hfwf' : b'.WF := by rw [hfr] at hf2; exact hf2
      cases res with
      | error e => exact ⟨rfl, hfwf'⟩
      | ok bl =>
        cases bl with
        | false => exact ⟨rfl, hfwf'⟩
        | true => exact ih { st.consume.rollStep with buf := b', rdr := s' } hfwf'
    · -- a match was found and is reported
      exact ⟨rfl, h⟩

/-- Refinement of `FindIterS.next` by `FindIterV.next`. -/
theorem FindIterS.next_view (st : FindIterS) (h : st.buf.WF) :
    FindIterV.next st.view = ((FindIterS.next st).1, (FindIterS.next st).2.view) ∧
      (FindIterS.next st).2.buf.WF :=
  FindIterS.nextAux_view _ st h

/-- Refinement of `itemsF` by `vitemsF`. -/
theorem itemsF_view (n : Nat) (st : FindIterS) (h : st.buf.WF) :
    itemsF n st = vitemsF n st.view := by
  induction n generalizing st with
  | zero => rfl
  | succ n ih =>
    rw [itemsF, vitemsF]
    obtain ⟨hv, hwf⟩ := FindIterS.next_view st h
    rw [hv]
    rcases hnx : FindIterS.next st with ⟨ox, st'⟩
    rw [hnx] at hwf
    cases ox with
    | none => rfl
    | some x =>
      simp only
      rw [ih st' hwf]

/-!  The corresponding view layer for the backward machine. -/

/-- Storage well-formedness for `BufferRev`. -/
def BufferRev.WF (b : BufferRev) : Prop := b.endPos ≤ b.buf.length

instance (b : BufferRev) : Decidable b.WF := by unfold BufferRev.WF; infer_instance

/-- The view of a backward buffer: capacity, visible contents, `min`. -/
structure BufRevView where
  cap : Nat
  cont : List Nat
  min : Nat
  deriving DecidableEq, Repr

/-- View abstraction for `BufferRev`. -/
def BufferRev.view (b : BufferRev) : BufRevView := ⟨b.buf.length, b.buffer, b.min⟩

/-- View projection of `BufferRev.view` (definitional). -/
theorem BufferRev.view_cont_rev (b : BufferRev) : b.view.cont = b.buffer := rfl

/-- Under well-formedness, the visible contents have length `endPos`. -/
theorem BufferRev.length_buffer_rev (b : BufferRev) (h : b.WF) : b.buffer.length = b.endPos := by
  simp only [BufferRev.WF] at h
  simp only [BufferRev.buffer, List.length_drop]
  omega

/-- Refinement of `BufferRev.write`: a full-chunk write prepends the chunk
to the visible contents. -/
theorem BufferRev.write_view_rev (b : BufferRev) (chunk : List Nat) (h : b.WF)
    (hc : chunk.length ≤ b.buf.length - b.endPos) :
    (b.write chunk).view = ⟨b.buf.length, chunk ++ b.buffer, b.min⟩ ∧
      (b.write chunk).WF := by
  have h' : b.endPos ≤ b.buf.length := h
  have hA : (b.buf.take (b.buf.length - b.endPos - chunk.length)).length =
      b.buf.length - b.endPos - chunk.length := by
    simp only [List.length_take]; omega
  have hlen : (b.write chunk).buf.length = b.buf.length := by
    simp only [BufferRev.write, List.length_append, List.length_take, List.length_drop]
    omega
  have hbuffer : (b.write chunk).buffer = chunk ++ b.buffer := by
    show (b.write chunk).buf.drop ((b.write chunk).buf.length - (b.write chunk).endPos) = _
    rw [hlen]
    show ((b.buf.take (b.buf.length - b.endPos - chunk.length) ++ chunk) ++
        b.buf.drop (b.buf.length - b.endPos)).drop (b.buf.length - (b.endPos + chunk.length)) = _
    rw [List.append_assoc]
    rw [List.drop_left' (by simp only [List.length_take]; omega)]
    rfl
  refine ⟨?_, ?_⟩
  · show (⟨_, _, _⟩ : BufRevView) = _
    rw [hlen, hbuffer]
    simp only [BufferRev.write]
  · show (b.write chunk).endPos ≤ (b.write chunk).buf.length
    rw [hlen]
    simp only [BufferRev.write]
    omega

/-- Refinement of `BufferRev.writeLow`: a failed `read_exact`'s partial
write does not change the view at all. -/
theorem BufferRev.writeLow_view (b : BufferRev) (amount : Nat) (got : List Nat) (h : b.WF)
    (ha : amount ≤ b.buf.length - b.endPos) (hg : got.length ≤ amount) :
    (b.writeLow amount got).view = b.view ∧ (b.writeLow amount got).WF := by
  have h' : b.endPos ≤ b.buf.length := h
  have hlen : (b.writeLow amount got).buf.length = b.buf.length := by
    simp only [BufferRev.writeLow, List.length_append, List.length_take, List.length_drop]
    omega
  have hbuffer : (b.writeLow amount got).buffer = b.buffer := by
    show (b.writeLow amount got).buf.drop
        ((b.writeLow amount got).buf.length - (b.writeLow amount got).endPos) = _
    rw [hlen]
    show ((b.buf.take (b.buf.length - b.endPos - amount) ++ got) ++
        b.buf.drop (b.buf.length - b.endPos - amount + got.length)).drop
          (b.buf.length - b.endPos) = _
    rw [List.drop_append_eq_append_drop]
    rw [List.drop_eq_nil_of_le (by simp only [List.length_append, List.length_take]; omega)]
    rw [List.nil_append, List.drop_drop]
    show _ = b.buf.drop (b.buf.length - b.endPos)
    congr 1
    simp only [List.length_append, List.length_take]
    omega
  refine ⟨?_, ?_⟩
  · show (⟨_, _, _⟩ : BufRevView) = _
    rw [hlen, hbuffer]
    simp only [BufferRev.writeLow, BufferRev.view]
  · show (b.writeLow amount got).endPos ≤ (b.writeLow amount got).buf.length
    rw [hlen]
    exact h

/-- View counterpart of `BufferRev.fillExact`. -/
def BufRevView.fillExact (v : BufRevView) (s : BwdStream) (amount : Nat) :
    Except Nat Bool × BufRevView × BwdStream :=
  match s.op with
  | (some e, s') => (.error e, v, s')
  | (none, s') =>
    if amount ≤ s'.data.length - s'.pos then
      (.ok true, { v with cont := (s'.data.drop s'.pos).take amount ++ v.cont },
       { s' with pos := s'.pos + amount })
    else
      (.ok false, v, { s' with pos := s'.data.length })

/-- Refinement of `BufferRev.fillExact` by `BufRevView.fillExact`. -/
theorem BufferRev.fillExact_view (b : BufferRev) (s : BwdStream) (amount : Nat)
    (h : b.WF) (ha : amount ≤ b.buf.length - b.endPos) :
    BufRevView.fillExact b.view s amount =
      ((b.fillExact s amount).1, (b.fillExact s amount).2.1.view,
        (b.fillExact s amount).2.2) ∧
      (b.fillExact s amount).2.1.WF := by
  rw [BufRevView.fillExact, BufferRev.fillExact]
  rcases s.op with ⟨- | e, s'⟩
  · simp only
    by_cases hrem : amount ≤ s'.data.length - s'.pos
    · rw [if_pos hrem, if_pos hrem]
      have hclen : ((s'.data.drop s'.pos).take amount).length = amount := by
        simp only [List.length_take, List.length_drop]
        omega
      obtain ⟨hw, hwf⟩ := BufferRev.write_view_rev b ((s'.data.drop s'.pos).take amount) h
        (by rw [hclen]; exact ha)
      refine ⟨?_, hwf⟩
      rw [hw]
      rfl
    · rw [if_neg hrem, if_neg hrem]
      have hrem' : s'.data.length - s'.pos < amount := by omega
      have hglen : ((s'.data.drop s'.pos).take (s'.data.length - s'.pos)).length ≤ amount := by
        simp only [List.length_take, List.length_drop]
        omega
      obtain ⟨hw, hwf⟩ := BufferRev.writeLow_view b amount
        ((s'.data.drop s'.pos).take (s'.data.length - s'.pos)) h ha hglen
      refine ⟨?_, hwf⟩
      rw [hw]
  · exact ⟨rfl, h⟩

/-- View counterpart of `BufferRev.rollRight`. -/
def BufRevView.rollRight (v : BufRevView) : BufRevView :=
  { v with cont := v.cont.take v.min }

/-- Refinement of `BufferRev.rollRight` by `BufRevView.rollRight`, under
the roll precondition. -/
theorem BufferRev.rollRight_view (b : BufferRev) (h : b.WF) (hm : b.min ≤ b.endPos) :
    (BufferRev.rollRight b).view = b.view.rollRight ∧ (BufferRev.rollRight b).WF := by
  have h' : b.endPos ≤ b.buf.length := h
  have hs : ((b.buf.drop (b.buf.length - b.endPos)).take b.min).length = b.min := by
    simp only [List.length_take, List.length_drop]
    omega
  have hlen : (BufferRev.rollRight b).buf.length = b.buf.length := by
    simp only [BufferRev.rollRight, List.length_append, List.length_take, hs]
    omega
  have hbuffer : (BufferRev.rollRight b).buffer = b.buffer.take b.min := by
    show (BufferRev.rollRight b).buf.drop
        ((BufferRev.rollRight b).buf.length - (BufferRev.rollRight b).endPos) = _
    rw [hlen]
    show (b.buf.take (b.buf.length -
          ((b.buf.drop (b.buf.length - b.endPos)).take b.min).length) ++
        (b.buf.drop (b.buf.length - b.endPos)).take b.min).drop (b.buf.length - b.min) = _
    rw [hs]
    rw [List.drop_left' (by simp only [List.length_take]; omega)]
    rfl
  refine ⟨?_, ?_⟩
  · show (⟨_, _, _⟩ : BufRevView) = _
    rw [hlen, hbuffer]
    simp only [BufferRev.rollRight, BufRevView.rollRight, BufferRev.view, BufferRev.view_cont_rev]
  · show (BufferRev.rollRight b).endPos ≤ (BufferRev.rollRight b).buf.length
    rw [hlen]
    simp only [BufferRev.rollRight]
    omega

/-- View of the backward iterator state. -/
structure FindRevIterV where
  rdr : BwdStream
  needle : List Nat
  buf : BufRevView
  searchPos : Nat
  streamPos : Nat
  reportPos : Nat
  seekPos : Nat
  streamLen : Nat
  deriving DecidableEq, Repr

/-- View abstraction for `FindRevIterS`. -/
def FindRevIterS.view (st : FindRevIterS) : FindRevIterV :=
  ⟨st.rdr, st.needle, st.buf.view, st.searchPos, st.streamPos, st.reportPos,
    st.seekPos, st.streamLen⟩

/-- View counterpart of `FindRevIterS.consume`. -/
def FindRevIterV.consume (st : FindRevIterV) : FindRevIterV :=
  if st.searchPos < st.buf.cont.length then
    { st with streamPos := st.streamPos - (st.buf.cont.length - st.searchPos),
              searchPos := st.buf.cont.length }
  else st

/-- View counterpart of `FindRevIterS.rollStep`. -/
def FindRevIterV.rollStep (st : FindRevIterV) : FindRevIterV :=
  if st.buf.min ≤ st.buf.cont.length then
    let b := st.buf.rollRight
    if b.cont.drop (b.cont.length - b.min) = st.needle then
      { st with buf := b, searchPos := b.min }
    else
      { st with buf := b, streamPos := st.streamPos + b.min, searchPos := 0 }
  else st

/-- View counterpart of `FindRevIterS.nextAux`. -/
def FindRevIterV.nextAux : Nat → FindRevIterV → Option (Except Nat Nat) × FindRevIterV
  | 0, st => (none, st)
  | fuel + 1, st =>
    match (if st.searchPos < st.buf.cont.length then
             memmemRfind st.needle (st.buf.cont.take (st.buf.cont.length - st.searchPos))
           else none) with
    | some mat =>
      let d := st.buf.cont.length - st.searchPos - mat
      let report := st.streamPos - d
      let st' := { st with reportPos := report, streamPos := st.streamPos - d,
                           searchPos := st.searchPos + d }
      if st.buf.cap < st.streamLen ∧ st.seekPos = 0 then
        (some (.ok (report + st.needle.length)), st')
      else
        (some (.ok report), st')
    | none =>
      let st1 := st.consume
      if st1.seekPos = 0 then (none, st1)
      else
        let st2 := st1.rollStep
        let freeLen := st2.buf.cap - st2.buf.cont.length
        let amtSeek :=
          if freeLen < st2.streamPos then (freeLen, st2.seekPos - freeLen)
          else (st2.streamPos, (0 : Nat))
        let st3 := { st2 with seekPos := amtSeek.2 }
        match st3.rdr.seekTo amtSeek.2 with
        | (.error e, s') => (some (.error e), { st3 with rdr := s' })
        | (.ok _, s') =>
          match BufRevView.fillExact st3.buf s' amtSeek.1 with
          | (.error e, b', s'') => (some (.error e), { st3 with buf := b', rdr := s'' })
          | (.ok false, b', s'') => (none, { st3 with buf := b', rdr := s'' })
          | (.ok true, b', s'') =>
            FindRevIterV.nextAux fuel { st3 with buf := b', rdr := s'' }

/-- View counterpart of `FindRevIterS.next`. -/
def FindRevIterV.next (st : FindRevIterV) : Option (Except Nat Nat) × FindRevIterV :=
  FindRevIterV.nextAux (st.seekPos + 4) st

/-- View counterpart of `itemsR`. -/
def vitemsR : Nat → FindRevIterV → List (Except Nat Nat)
  | 0, _ => []
  | n + 1, st =>
    match FindRevIterV.next st with
    | (some x, st') => x :: vitemsR n st'
    | (none, _) => []

/-- Refinement of `FindRevIterS.consume` by `FindRevIterV.consume`. -/
theorem FindRevIterS.consume_view_rev (st : FindRevIterS) (h : st.buf.WF) :
    st.consume.view = st.view.consume ∧ st.consume.buf = st.buf ∧
      st.consume.rdr = st.rdr ∧ st.consume.seekPos = st.seekPos := by
  obtain ⟨rdr, needle, buf, sp, stp, rp, sk, sl⟩ := st
  have hlen : buf.view.cont.length = buf.len := BufferRev.length_buffer_rev buf h
  simp only [FindRevIterS.consume, FindRevIterV.consume, FindRevIterS.view, hlen]
  by_cases hc : sp < buf.len
  · rw [if_pos hc, if_pos hc]
    exact ⟨rfl, rfl, rfl, rfl⟩
  · rw [if_neg hc, if_neg hc]
    exact ⟨rfl, rfl, rfl, rfl⟩

/-- Refinement of `FindRevIterS.rollStep` by `FindRevIterV.rollStep`. -/
theorem FindRevIterS.rollStep_view_rev (st : FindRevIterS) (h : st.buf.WF) :
    st.rollStep.view = st.view.rollStep ∧ st.rollStep.buf.WF ∧
      st.rollStep.rdr = st.rdr ∧ st.rollStep.seekPos = st.seekPos := by
  obtain ⟨rdr, needle, buf, sp, stp, rp, sk, sl⟩ := st
  have hlen : buf.view.cont.length = buf.len := BufferRev.length_buffer_rev buf h
  simp only [FindRevIterS.rollStep, FindRevIterV.rollStep, FindRevIterS.view, hlen]
  have hmin : buf.view.min = buf.minBufferLen := rfl
  rw [hmin]
  by_cases hc : buf.minBufferLen ≤ buf.len
  · rw [if_pos hc, if_pos hc]
    obtain ⟨hrv, hrwf⟩ := BufferRev.rollRight_view buf h hc
    simp only [← hrv, BufferRev.view_cont_rev]
    rw [show buf.rollRight.view.min = buf.rollRight.minBufferLen from rfl,
      show buf.rollRight.buffer.length = buf.rollRight.len from
        BufferRev.length_buffer_rev _ hrwf]
    by_cases he : List.drop (buf.rollRight.len - buf.rollRight.minBufferLen)
        buf.rollRight.buffer = needle
    · simp only [if_pos he]
      refine ⟨?_, hrwf, ?_, ?_⟩ <;> trivial
    · simp only [if_neg he]
      refine ⟨?_, hrwf, ?_, ?_⟩ <;> trivial
  · rw [if_neg hc, if_neg hc]
    exact ⟨rfl, h, rfl, rfl⟩

/-- The fill amounts requested by the backward searcher never exceed the
free capacity: the requested amount is `min (free, stream_pos)` in effect.
This is the hypothesis `fillExact_view` needs. -/
theorem FindRevIterS.amount_le (cap len stp : Nat) :
    (if cap - len < stp then cap - len else stp) ≤ cap - len := by
  split <;> omega

/-- Refinement of `FindRevIterS.nextAux` by `FindRevIterV.nextAux`. -/
theorem FindRevIterS.nextAux_view_rev (fuel : Nat) (st : FindRevIterS) (h : st.buf.WF) :
    FindRevIterV.nextAux fuel st.view =
      ((FindRevIterS.nextAux fuel st).1, (FindRevIterS.nextAux fuel st).2.view) ∧
      (FindRevIterS.nextAux fuel st).2.buf.WF := by
  induction fuel generalizing st with
  | zero => exact ⟨rfl, h⟩
  | succ fuel ih =>
    rw [FindRevIterV.nextAux, FindRevIterS.nextAux]
    have hlen : st.view.buf.cont.length = st.buf.len := BufferRev.length_buffer_rev st.buf h
    have hsp : st.view.searchPos = st.searchPos := rfl
    have hneedle : st.view.needle = st.needle := rfl
    have hstp : st.view.streamPos = st.streamPos := rfl
    have hsk : st.view.seekPos = st.seekPos := rfl
    have hsl : st.view.streamLen = st.streamLen := rfl
    have hcont : st.view.buf.cont = st.buf.buffer := rfl
    have hcap : st.view.buf.cap = st.buf.capacity := rfl
    rw [hlen, hsp, hneedle, hstp, hsk, hsl, hcont, hcap]
    rcases hm : (if st.searchPos < st.buf.len then
        memmemRfind st.needle (st.buf.buffer.take (st.buf.len - st.searchPos))
      else none) with - | mat
    · -- no match: consume, stop at seek 0, else roll and refill
      simp only
      obtain ⟨hc1, hc2, hc3, hc4⟩ := FindRevIterS.consume_view_rev st h
      have hcwf : st.consume.buf.WF := hc2 ▸ h
      rw [← hc1]
      have hsk1 : st.consume.view.seekPos = st.consume.seekPos := rfl
      rw [hsk1]
      by_cases hz : st.consume.seekPos = 0
      · rw [if_pos hz, if_pos hz]
        exact ⟨rfl, hcwf⟩
      · rw [if_neg hz, if_neg hz]
        obtain ⟨hr1, hr2, hr3, hr4⟩ := FindRevIterS.rollStep_view_rev st.consume hcwf
        rw [← hr1]
        rw [show st.consume.rollStep.view.buf = st.consume.rollStep.buf.view from rfl,
          show st.consume.rollStep.view.streamPos = st.consume.rollStep.streamPos from rfl,
          show st.consume.rollStep.view.seekPos = st.consume.rollStep.seekPos from rfl,
          show st.consume.rollStep.view.rdr = st.consume.rollStep.rdr from rfl,
          show st.consume.rollStep.buf.view.cont.length = st.consume.rollStep.buf.len from
            BufferRev.length_buffer_rev _ hr2,
          show st.consume.rollStep.buf.view.cap = st.consume.rollStep.buf.capacity from rfl]
        have hamt : ((if st.consume.rollStep.buf.capacity - st.consume.rollStep.buf.len <
              st.consume.rollStep.streamPos then
            (st.consume.rollStep.buf.capacity - st.consume.rollStep.buf.len,
              st.consume.rollStep.seekPos -
                (st.consume.rollStep.buf.capacity - st.consume.rollStep.buf.len))
          else (st.consume.rollStep.streamPos, (0 : Nat))).1) ≤
            st.consume.rollStep.buf.capacity - st.consume.rollStep.buf.len := by
          by_cases hcnd : st.consume.rollStep.buf.capacity - st.consume.rollStep.buf.len <
              st.consume.rollStep.streamPos
          · rw [if_pos hcnd]
          · rw [if_neg hcnd]
            show st.consume.rollStep.streamPos ≤ _
            omega
        rcases hseek : st.consume.rollStep.rdr.seekTo
            ((if st.consume.rollStep.buf.capacity - st.consume.rollStep.buf.len <
                st.consume.rollStep.streamPos then
              (st.consume.rollStep.buf.capacity - st.consume.rollStep.buf.len,
                st.consume.rollStep.seekPos -
                  (st.consume.rollStep.buf.capacity - st.consume.rollStep.buf.len))
            else (st.consume.rollStep.streamPos, (0 : Nat))).2) with ⟨sres, s'⟩
        cases sres with
        | error e => exact ⟨rfl, hr2⟩
        | ok u =>
          simp only
          obtain ⟨hf1, hf2⟩ := BufferRev.fillExact_view st.consume.rollStep.buf s'
            ((if st.consume.rollStep.buf.capacity - st.consume.rollStep.buf.len <
                st.consume.rollStep.streamPos then
              (st.consume.rollStep.buf.capacity - st.consume.rollStep.buf.len,
                st.consume.rollStep.seekPos -
                  (st.consume.rollStep.buf.capacity - st.consume.rollStep.buf.len))
            else (st.consume.rollStep.streamPos, (0 : Nat))).1) hr2 hamt
          rw [hf1]
          rcases hfr : st.consume.rollStep.buf.fillExact s'
              ((if st.consume.rollStep.buf.capacity - st.consume.rollStep.buf.len <
                  st.consume.rollStep.streamPos then
                (st.consume.rollStep.buf.capacity - st.consume.rollStep.buf.len,
                  st.consume.rollStep.seekPos -
                    (st.consume.rollStep.buf.capacity - st.consume.rollStep.buf.len))
              else (st.consume.rollStep.streamPos, (0 : Nat))).1) with ⟨res, b', s''⟩
          have hfwf' : b'.WF := by rw [hfr] at hf2; exact hf2
          cases res with
          | error e => exact ⟨rfl, hfwf'⟩
          | ok bl =>
            cases bl with
            | false => exact ⟨rfl, hfwf'⟩
            | true =>
              exact ih ⟨s'', st.consume.rollStep.needle, b', st.consume.rollStep.searchPos,
                st.consume.rollStep.streamPos, st.consume.rollStep.reportPos,
                (if st.consume.rollStep.buf.capacity - st.consume.rollStep.buf.len <
                    st.consume.rollStep.streamPos then
                  (st.consume.rollStep.buf.capacity - st.consume.rollStep.buf.len,
                    st.consume.rollStep.seekPos -
                      (st.consume.rollStep.buf.capacity - st.consume.rollStep.buf.len))
                else (st.consume.rollStep.streamPos, (0 : Nat))).2,
                st.consume.rollStep.streamLen⟩ hfwf'
    · -- a match was found and is reported (with the end-of-stream hack)
      simp only
      by_cases hhack : st.buf.capacity < st.streamLen ∧ st.seekPos = 0
      · rw [if_pos hhack, if_pos hhack]
        exact ⟨rfl, h⟩
      · rw [if_neg hhack, if_neg hhack]
        exact ⟨rfl, h⟩

/-- Refinement of `FindRevIterS.next` by `FindRevIterV.next`. -/
theorem FindRevIterS.next_view_rev (st : FindRevIterS) (h : st.buf.WF) :
    FindRevIterV.next st.view = ((FindRevIterS.next st).1, (FindRevIterS.next st).2.view) ∧
      (FindRevIterS.next st).2.buf.WF :=
  FindRevIterS.nextAux_view_rev _ st h

/-- Refinement of `itemsR` by `vitemsR`. -/
theorem itemsR_view (n : Nat) (st : FindRevIterS) (h : st.buf.WF) :
    itemsR n st = vitemsR n st.view := by
  induction n generalizing st with
  | zero => rfl
  | succ n ih =>
    rw [itemsR, vitemsR]
    obtain ⟨hv, hwf⟩ := FindRevIterS.next_view_rev st h
    rw [hv]
    rcases hnx : FindRevIterS.next st with ⟨ox, st'⟩
    rw [hnx] at hwf
    cases ox with
    | none => rfl
    | some x =>
      simp only
      rw [ih st' hwf]

/-!  Views of freshly constructed searchers. -/

/-- The default capacity is 8192 bytes. -/
theorem default_capacity_eq : DEFAULT_BUFFER_CAPACITY = 8192 := by decide

/-- For needles of length at most 1024, the chosen capacity is exactly the
8192-byte default. -/
theorem capacity_small (n : Nat) (hn : n ≤ 1024) :
    max (max 1 n * 8) DEFAULT_BUFFER_CAPACITY = 8192 := by
  rw [default_capacity_eq]
  omega

/-- A fresh forward searcher's storage is well-formed. -/
theorem FindIterS.new_wf (rdr : FwdStream) (needle : List Nat) :
    (FindIterS.new rdr needle).buf.WF :=
  Nat.zero_le _

/-- The view of a fresh forward searcher, for a short needle. -/
theorem FindIterS.new_view (rdr : FwdStream) (needle : List Nat)
    (hn : needle.length ≤ 1024) :
    (FindIterS.new rdr needle).view =
      ⟨rdr, needle, ⟨8192, [], max 1 needle.length⟩, 0, 0, 0, false⟩ := by
  simp only [FindIterS.new, FindIterS.view, Buffer.new, Buffer.view, Buffer.buffer,
    List.length_replicate, List.take_zero]
  rw [capacity_small needle.length hn]

/-- Collected items of a fresh forward searcher, computed on the view
machine (for a short needle). -/
theorem itemsF_new (n : Nat) (rdr : FwdStream) (needle : List Nat)
    (hn : needle.length ≤ 1024) :
    itemsF n (FindIterS.new rdr needle) =
      vitemsF n ⟨rdr, needle, ⟨8192, [], max 1 needle.length⟩, 0, 0, 0, false⟩ := by
  rw [itemsF_view n _ (FindIterS.new_wf rdr needle), FindIterS.new_view rdr needle hn]

/-- A fresh backward searcher on an error-free stream: the construction
succeeds and captures the stream length. -/
theorem FindRevIterS.new_ok (data : List Nat) (p : Nat) (needle : List Nat) :
    FindRevIterS.new ⟨data, p, []⟩ needle =
      .ok ⟨⟨data, data.length, []⟩, needle, BufferRev.new needle.length,
        0, data.length, 0, data.length, data.length⟩ := rfl

/-- A fresh backward searcher's storage is well-formed. -/
theorem BufferRev.new_wf_rev (n : Nat) : (BufferRev.new n).WF := Nat.zero_le _

/-- The view of a fresh backward buffer, for a short needle. -/
theorem BufferRev.new_view_rev (n : Nat) (hn : n ≤ 1024) :
    (BufferRev.new n).view = ⟨8192, [], max 1 n⟩ := by
  simp only [BufferRev.new, BufferRev.view, BufferRev.buffer, List.length_replicate]
  rw [capacity_small n hn]
  simp only [Nat.sub_zero, List.drop_replicate, Nat.sub_self, List.replicate_zero]

/-!
Symbolic single-round lemmas for the backward machine, used to compute the
large backward trace without evaluating 8192-element terms.  Each lemma
pins one branch profile of `FindRevIterV.nextAux` through explicit
hypotheses.
-/

/-- Backward round: nothing to scan, stream not exhausted, window too
small to roll, chunk limited by free capacity (`freeLen < stream_pos`),
read succeeds: the machine seeks back by the free capacity and fills. -/
theorem FindRevIterV.round_fill_free (fuel : Nat) (d : List Nat) (p : Nat)
    (needle cont : List Nat) (cap m sp stp rp sk sl : Nat)
    (hns : ¬ sp < cont.length) (hsk : ¬ sk = 0) (hnr : ¬ m ≤ cont.length)
    (hb1 : cap - cont.length < stp)
    (hfill : cap - cont.length ≤ d.length - (sk - (cap - cont.length))) :
    FindRevIterV.nextAux (fuel + 1) ⟨⟨d, p, []⟩, needle, ⟨cap, cont, m⟩, sp, stp, rp, sk, sl⟩ =
      FindRevIterV.nextAux fuel
        ⟨⟨d, sk - (cap - cont.length) + (cap - cont.length), []⟩, needle,
          ⟨cap, (d.drop (sk - (cap - cont.length))).take (cap - cont.length) ++ cont, m⟩,
          sp, stp, rp, sk - (cap - cont.length), sl⟩ := by
  rw [FindRevIterV.nextAux]
  simp only [FindRevIterV.consume, FindRevIterV.rollStep, BufRevView.fillExact,
    BwdStream.seekTo, BwdStream.op, if_neg hns, if_neg hsk, if_neg hnr, if_pos hb1,
    if_pos hfill]

/-- Backward round: nothing to scan, stream not exhausted, roll-right
happens and the retained prefix equals the needle (skip branch), the
remaining prefix fits the window (`¬ freeLen < stream_pos`), read
succeeds: the machine seeks to 0 and reads the whole remaining prefix. -/
theorem FindRevIterV.round_fill_rest (fuel : Nat) (d : List Nat) (p : Nat)
    (needle cont : List Nat) (cap m sp stp rp sk sl : Nat)
    (hns : ¬ sp < cont.length) (hsk : ¬ sk = 0) (hroll : m ≤ cont.length)
    (he : (cont.take m).drop ((cont.take m).length - m) = needle)
    (hb2 : ¬ cap - (cont.take m).length < stp)
    (hfill : stp ≤ d.length - 0) :
    FindRevIterV.nextAux (fuel + 1) ⟨⟨d, p, []⟩, needle, ⟨cap, cont, m⟩, sp, stp, rp, sk, sl⟩ =
      FindRevIterV.nextAux fuel
        ⟨⟨d, 0 + stp, []⟩, needle, ⟨cap, (d.drop 0).take stp ++ cont.take m, m⟩,
          m, stp, rp, 0, sl⟩ := by
  rw [FindRevIterV.nextAux]
  simp only [FindRevIterV.consume, FindRevIterV.rollStep, BufRevView.rollRight,
    BufRevView.fillExact, BwdStream.seekTo, BwdStream.op, if_neg hns, if_neg hsk,
    if_pos hroll, if_pos he, if_neg hb2, if_pos hfill]

/-- Backward round: the scan of the unscanned region finds a (last)
occurrence and the end-of-stream correction does not apply: the match is
reported as is. -/
theorem FindRevIterV.round_report (fuel : Nat) (rdr : BwdStream)
    (needle cont : List Nat) (cap m sp stp rp sk sl mat : Nat)
    (hs : sp < cont.length)
    (hm : memmemRfind needle (cont.take (cont.length - sp)) = some mat)
    (hhack : ¬ (cap < sl ∧ sk = 0)) :
    FindRevIterV.nextAux (fuel + 1) ⟨rdr, needle, ⟨cap, cont, m⟩, sp, stp, rp, sk, sl⟩ =
      (some (.ok (stp - (cont.length - sp - mat))),
        ⟨rdr, needle, ⟨cap, cont, m⟩, sp + (cont.length - sp - mat),
          stp - (cont.length - sp - mat), stp - (cont.length - sp - mat), sk, sl⟩) := by
  rw [FindRevIterV.nextAux]
  simp only [if_pos hs, hm, if_neg hhack]

/-- Backward round: a match is found while the end-of-stream correction
condition holds: the code reports the position shifted up by the needle
length. -/
theorem FindRevIterV.round_report_hack (fuel : Nat) (rdr : BwdStream)
    (needle cont : List Nat) (cap m sp stp rp sk sl mat : Nat)
    (hs : sp < cont.length)
    (hm : memmemRfind needle (cont.take (cont.length - sp)) = some mat)
    (hhack : cap < sl ∧ sk = 0) :
    FindRevIterV.nextAux (fuel + 1) ⟨rdr, needle, ⟨cap, cont, m⟩, sp, stp, rp, sk, sl⟩ =
      (some (.ok (stp - (cont.length - sp - mat) + needle.length)),
        ⟨rdr, needle, ⟨cap, cont, m⟩, sp + (cont.length - sp - mat),
          stp - (cont.length - sp - mat), stp - (cont.length - sp - mat), sk, sl⟩) := by
  rw [FindRevIterV.nextAux]
  simp only [if_pos hs, hm, if_pos hhack]

/-- Backward round: nothing to scan and the unread prefix is empty: the
sequence ends. -/
theorem FindRevIterV.round_done (fuel : Nat) (rdr : BwdStream)
    (needle cont : List Nat) (cap m sp stp rp sl : Nat)
    (hns : ¬ sp < cont.length) :
    FindRevIterV.nextAux (fuel + 1) ⟨rdr, needle, ⟨cap, cont, m⟩, sp, stp, rp, 0, sl⟩ =
      (none, ⟨rdr, needle, ⟨cap, cont, m⟩, sp, stp, rp, 0, sl⟩) := by
  rw [FindRevIterV.nextAux]
  simp only [FindRevIterV.consume, if_neg hns]
  rfl

/-!
Symbolic single-round lemmas for the forward machine, in the same style.
-/

/-- Forward round: the scan of the unscanned region finds an occurrence,
which is reported. -/
theorem FindIterV.round_hit (fuel : Nat) (st : FindIterV) (mat : Nat)
    (hscan : (if st.searchPos < st.buf.cont.length then
               memmemFind st.needle (st.buf.cont.drop st.searchPos)
             else none) = some mat) :
    FindIterV.nextAux (fuel + 1) st =
      (some (.ok (st.streamPos + mat)),
       { st with reportPos := st.streamPos + mat,
                 streamPos := st.streamPos + mat + st.needle.length,
                 searchPos := st.searchPos + mat + st.needle.length }) := by
  rw [FindIterV.nextAux, hscan]

/-- Forward round: no occurrence; consume, roll, and a successful fill
continues the loop. -/
theorem FindIterV.round_miss_fill_ok (fuel : Nat) (st st2 : FindIterV) (b' : BufView)
    (s' : FwdStream) (lg : List Nat)
    (hscan : (if st.searchPos < st.buf.cont.length then
               memmemFind st.needle (st.buf.cont.drop st.searchPos)
             else none) = none)
    (hst2 : st.consume.rollStep = st2)
    (hfill : BufView.fill st2.buf st2.rdr = (.ok true, b', s', lg)) :
    FindIterV.nextAux (fuel + 1) st =
      FindIterV.nextAux fuel { st2 with buf := b', rdr := s' } := by
  rw [FindIterV.nextAux, hscan]
  simp only [hst2, hfill]

/-- Forward round: no occurrence; consume, roll, and a fill that obtains
no bytes ends the sequence. -/
theorem FindIterV.round_miss_fill_none (fuel : Nat) (st st2 : FindIterV) (b' : BufView)
    (s' : FwdStream) (lg : List Nat)
    (hscan : (if st.searchPos < st.buf.cont.length then
               memmemFind st.needle (st.buf.cont.drop st.searchPos)
             else none) = none)
    (hst2 : st.consume.rollStep = st2)
    (hfill : BufView.fill st2.buf st2.rdr = (.ok false, b', s', lg)) :
    FindIterV.nextAux (fuel + 1) st = (none, { st2 with buf := b', rdr := s' }) := by
  rw [FindIterV.nextAux, hscan]
  simp only [hst2, hfill]

/-- `next` in terms of `nextAux` (definitional). -/
theorem FindIterV.next_eq (st : FindIterV) :
    FindIterV.next st =
      FindIterV.nextAux (st.rdr.script.length + (st.rdr.data.length - st.rdr.pos) + 2)
        st := rfl

/-- One round of the fill loop on a full-read stream that reads at least
one byte reaching the minimum: the fill returns at once. -/
theorem fillAux_cursor_ok (fuel : Nat) (cap m p : Nat) (cont d : List Nat)
    (ra : Bool)
    (hn0 : ¬ ((d.drop p).take (min (cap - cont.length) (d.length - p))).length = 0)
    (hm : m ≤ (cont ++ (d.drop p).take (min (cap - cont.length) (d.length - p))).length) :
    BufView.fillAux (fuel + 1) ⟨cap, cont, m⟩ ⟨d, p, []⟩ ra =
      (.ok true,
       ⟨cap, cont ++ (d.drop p).take (min (cap - cont.length) (d.length - p)), m⟩,
       ⟨d, p + min (cap - cont.length) (d.length - p), []⟩,
       [((d.drop p).take (min (cap - cont.length) (d.length - p))).length]) := by
  rw [BufView.fillAux]
  simp only [FwdStream.read, BufView.write, if_neg hn0, if_pos hm]

/-- One round of the fill loop on a full-read stream at end of stream: the
read returns zero bytes and the fill stops. -/
theorem fillAux_cursor_eof (fuel : Nat) (cap m p : Nat) (cont d : List Nat)
    (ra : Bool)
    (h0 : ((d.drop p).take (min (cap - cont.length) (d.length - p))).length = 0) :
    BufView.fillAux (fuel + 1) ⟨cap, cont, m⟩ ⟨d, p, []⟩ ra =
      (.ok ra, ⟨cap, cont, m⟩,
       ⟨d, p + min (cap - cont.length) (d.length - p), []⟩, [0]) := by
  rw [BufView.fillAux]
  simp only [FwdStream.read, if_pos h0]

/-!
The C2 input: 8193 bytes, `0x07` at offsets 0 and 1, zeros elsewhere.
`c2win` is the window contents after the first backward fill (bytes
1..8193).
-/

/-- The C2 stream contents. -/
def c2data : List Nat := 7 :: 7 :: List.replicate 8191 0

/-- The first backward window on `c2data`: bytes 1..8193. -/
def c2win : List Nat := 7 :: List.replicate 8191 0

/-- Length of the C2 stream. -/
theorem c2data_length : c2data.length = 8193 := by
  simp only [c2data, List.length_cons, List.length_replicate]

/-- Length of the first backward window. -/
theorem c2win_length : c2win.length = 8192 := by
  simp only [c2win, List.length_cons, List.length_replicate]

/-- The first backward fill reads exactly `c2win`. -/
theorem c2drop : (c2data.drop 1).take 8192 = c2win := by
  rw [show c2data.drop 1 = c2win from rfl]
  exact List.take_of_length_le (by rw [c2win_length])

/-- Head byte of the window. -/
theorem c2win_take1 : c2win.take 1 = [7] := rfl

/-- Head byte of the stream. -/
theorem c2data_take1 : (c2data.drop 0).take 1 = [7] := rfl

/-- `[7]` is not a prefix of a zero-headed list. -/
theorem sevenNotPrefixZero (l : List Nat) : List.isPrefixOf [7] (0 :: l) = false := rfl

/-- The backward scan accumulator is unchanged over a run of zeros. -/
theorem rfindGo_zeros (n : Nat) : ∀ (i : Nat) (acc : Option Nat),
    memmemRfind.go [7] i acc (List.replicate n 0) = acc := by
  induction n with
  | zero =>
    intro i acc
    rw [List.replicate_zero, memmemRfind.go, if_neg (by decide : ¬ ([7] : List Nat) = [])]
  | succ n ih =>
    intro i acc
    rw [List.replicate_succ, memmemRfind.go, sevenNotPrefixZero,
      if_neg Bool.false_ne_true]
    exact ih (i + 1) acc

/-- The forward scan finds nothing in a run of zeros. -/
theorem findGo_zeros (n : Nat) : ∀ (i : Nat),
    memmemFind.go [7] i (List.replicate n 0) = none := by
  induction n with
  | zero =>
    intro i
    rw [List.replicate_zero, memmemFind.go, if_neg (by decide : ¬ ([7] : List Nat) = [])]
  | succ n ih =>
    intro i
    rw [List.replicate_succ, memmemFind.go, sevenNotPrefixZero,
      if_neg Bool.false_ne_true]
    exact ih (i + 1)

/-- The last occurrence of `7` in the first backward window is at 0. -/
theorem c2scan : memmemRfind [7] c2win = some 0 := by
  show memmemRfind.go [7] 0 none c2win = some 0
  rw [show c2win = 7 :: List.replicate 8191 0 from rfl, memmemRfind.go,
    show List.isPrefixOf [7] (7 :: List.replicate 8191 0) = true from rfl,
    if_pos rfl]
  exact rfindGo_zeros 8191 1 (some 0)

/-- Forward reference-scan facts on `c2data`. -/
theorem c2f0 : memmemFind [7] (c2data.drop 0) = some 0 := rfl

/-- The forward scan from offset 1 matches at once. -/
theorem c2f1 : memmemFind [7] (c2data.drop 1) = some 0 := rfl

/-- The forward scan from offset 2 finds nothing. -/
theorem c2f2 : memmemFind [7] (c2data.drop 2) = none := by
  rw [show c2data.drop 2 = List.replicate 8191 0 from rfl]
  show memmemFind.go [7] 0 (List.replicate 8191 0) = none
  exact findGo_zeros 8191 0

/-- One step of the reference search when a match exists. -/
theorem refFrom_succ_some (needle hay : List Nat) (fuel i m : Nat)
    (h : memmemFind needle (hay.drop i) = some m) :
    refFrom needle hay (fuel + 1) i =
      (i + m) :: refFrom needle hay fuel (i + m + needle.length) := by
  rw [refFrom, h]

/-- One step of the reference search when no match exists. -/
theorem refFrom_succ_none (needle hay : List Nat) (fuel i : Nat)
    (h : memmemFind needle (hay.drop i) = none) :
    refFrom needle hay (fuel + 1) i = [] := by
  rw [refFrom, h]

/-- The reference search on the C2 input: matches at 0 and 1. -/
theorem c2ref : refAllMatches [7] c2data = [0, 1] := by
  rw [refAllMatches, c2data_length,
    refFrom_succ_some [7] c2data 8193 0 0 c2f0,
    show (0 + 0 : Nat) = 0 from rfl, show (0 + List.length [7] : Nat) = 1 from rfl,
    show (8193 : Nat) = 8192 + 1 from rfl,
    refFrom_succ_some [7] c2data 8192 1 0 c2f1,
    show (1 + 0 : Nat) = 1 from rfl, show (1 + List.length [7] : Nat) = 2 from rfl,
    show (8192 : Nat) = 8191 + 1 from rfl,
    refFrom_succ_none [7] c2data 8191 2 c2f2]

/-- The backward trace on the C2 input, computed over an abstract stream
satisfying the relevant list facts: the view machine emits `Ok 1` twice
and stops. -/
theorem c2trace_v (data cont1 : List Nat)
    (hdl : data.length = 8193)
    (hdrop : (data.drop 1).take 8192 = cont1)
    (hlen1 : cont1.length = 8192)
    (hscan1 : memmemRfind [7] cont1 = some 0)
    (htake1 : cont1.take 1 = [7])
    (htake0 : (data.drop 0).take 1 = [7]) :
    vitemsR 4 ⟨⟨data, 8193, []⟩, [7], ⟨8192, [], 1⟩, 0, 8193, 0, 8193, 8193⟩ =
      [.ok 1, .ok 1] := by
  have hmA : memmemRfind [7] (cont1.take (cont1.length - 0)) = some 0 := by
    rw [Nat.sub_zero, List.take_length]
    exact hscan1
  have hn0 : FindRevIterV.next
      ⟨⟨data, 8193, []⟩, [7], ⟨8192, [], 1⟩, 0, 8193, 0, 8193, 8193⟩ =
      (some (.ok 1), ⟨⟨data, 8193, []⟩, [7], ⟨8192, cont1, 1⟩, 8192, 1, 1, 1, 8193⟩) := by
    rw [FindRevIterV.next]
    rw [show ((⟨⟨data, 8193, []⟩, [7], ⟨8192, [], 1⟩, 0, 8193, 0, 8193, 8193⟩ :
      FindRevIterV).seekPos + 4) = 8196 + 1 from rfl]
    rw [FindRevIterV.round_fill_free 8196 data 8193 [7] [] 8192 1 0 8193 0 8193 8193
      (by norm_num) (by norm_num) (by norm_num) (by norm_num) (by rw [hdl]; norm_num)]
    norm_num
    rw [← List.drop_one, hdrop]
    rw [show (8196 : Nat) = 8195 + 1 from rfl]
    rw [FindRevIterV.round_report 8195 ⟨data, 8193, []⟩ [7] cont1 8192 1 0 8193 0 1 8193 0
      (by rw [hlen1]; norm_num) hmA (by norm_num)]
    rw [hlen1]
  have hn1 : FindRevIterV.next
      ⟨⟨data, 8193, []⟩, [7], ⟨8192, cont1, 1⟩, 8192, 1, 1, 1, 8193⟩ =
      (some (.ok 1), ⟨⟨data, 1, []⟩, [7], ⟨8192, [7, 7], 1⟩, 2, 0, 0, 0, 8193⟩) := by
    rw [FindRevIterV.next]
    rw [show ((⟨⟨data, 8193, []⟩, [7], ⟨8192, cont1, 1⟩, 8192, 1, 1, 1, 8193⟩ :
      FindRevIterV).seekPos + 4) = 4 + 1 from rfl]
    rw [FindRevIterV.round_fill_rest 4 data 8193 [7] cont1 8192 1 8192 1 1 1 8193
      (by rw [hlen1]; norm_num) (by norm_num) (by rw [hlen1]; norm_num)
      (by rw [htake1]; rfl) (by rw [htake1]; norm_num) (by rw [hdl]; norm_num)]
    rw [htake0, htake1]
    norm_num
    rw [show (4 : Nat) = 3 + 1 from rfl]
    rw [FindRevIterV.round_report_hack 3 ⟨data, 1, []⟩ [7] [7, 7] 8192 1 1 1 1 0 8193 0
      (by norm_num) (by decide) (by norm_num)]
    norm_num
  have hn2 : FindRevIterV.next
      ⟨⟨data, 1, []⟩, [7], ⟨8192, [7, 7], 1⟩, 2, 0, 0, 0, 8193⟩ =
      (none, ⟨⟨data, 1, []⟩, [7], ⟨8192, [7, 7], 1⟩, 2, 0, 0, 0, 8193⟩) := by
    rw [FindRevIterV.next]
    rw [show ((⟨⟨data, 1, []⟩, [7], ⟨8192, [7, 7], 1⟩, 2, 0, 0, 0, 8193⟩ :
      FindRevIterV).seekPos + 4) = 3 + 1 from rfl]
    exact FindRevIterV.round_done 3 ⟨data, 1, []⟩ [7] [7, 7] 8192 1 2 0 0 8193 (by norm_num)
  rw [show (4 : Nat) = 3 + 1 from rfl, vitemsR, hn0]
  simp only []
  rw [show (3 : Nat) = 2 + 1 from rfl, vitemsR, hn1]
  simp only []
  nth_rewrite 1 [show (2 : Nat) = 1 + 1 from rfl]
  rw [vitemsR, hn2]

/-!
The C1 input: 8193 bytes, zeros followed by `1` at offsets 8189..8192,
searched for the needle `[1,1]` with full (in-memory) reads.  `c1win` is
the first window (bytes 0..8192).
-/

/-- The C1 stream contents. -/
def c1data : List Nat := List.replicate 8189 0 ++ [1, 1, 1, 1]

/-- The first forward window on `c1data`: bytes 0..8192. -/
def c1win : List Nat := List.replicate 8189 0 ++ [1, 1, 1]

/-- Length of the C1 stream. -/
theorem c1data_length : c1data.length = 8193 := by
  simp only [c1data, List.length_append, List.length_replicate, List.length_cons,
    List.length_nil]

/-- Length of the first forward window. -/
theorem c1win_length : c1win.length = 8192 := by
  simp only [c1win, List.length_append, List.length_replicate, List.length_cons,
    List.length_nil]

/-- The first forward fill reads exactly `c1win`. -/
theorem c1take : c1data.take 8192 = c1win := by
  rw [c1data, c1win, List.take_append_eq_append_take,
    List.take_of_length_le (by rw [List.length_replicate]; omega), List.length_replicate]
  norm_num

/-- `[1,1]` is not a prefix of a zero-headed list. -/
theorem oneOneNotPrefixZero (l : List Nat) : List.isPrefixOf [1, 1] (0 :: l) = false := rfl

/-- The forward scan over zeros followed by a block starting with `1 1`
finds the first occurrence right after the zeros. -/
theorem findGo_zeros_then (L : List Nat) (hL : List.isPrefixOf [1, 1] L = true)
    (n : Nat) : ∀ i, memmemFind.go [1, 1] i (List.replicate n 0 ++ L) = some (i + n) := by
  induction n with
  | zero =>
    intro i
    rcases L with - | ⟨a, L2⟩
    · exact absurd hL (by decide)
    · rw [List.replicate_zero, List.nil_append, memmemFind.go, hL, if_pos rfl,
        Nat.add_zero]
  | succ n ih =>
    intro i
    rw [List.replicate_succ, List.cons_append, memmemFind.go, oneOneNotPrefixZero,
      if_neg Bool.false_ne_true, ih (i + 1)]
    congr 1
    omega

/-- The first occurrence of `[1,1]` in the first window is at 8189. -/
theorem c1scan : memmemFind [1, 1] c1win = some 8189 := by
  show memmemFind.go [1, 1] 0 c1win = some 8189
  rw [c1win, findGo_zeros_then [1, 1, 1] rfl 8189 0]

/-- The window rolled from the first window is its last two bytes. -/
theorem c1win_drop8190 : c1win.drop 8190 = [1, 1] := by
  rw [c1win, List.drop_append_eq_append_drop,
    List.drop_eq_nil_of_le (by rw [List.length_replicate]; omega), List.length_replicate,
    List.nil_append]
  norm_num

/-- No occurrence of `[1,1]` in the single unscanned byte of the first
window. -/
theorem c1win_scan_tail : memmemFind [1, 1] (c1win.drop 8191) = none := by
  rw [c1win, List.drop_append_eq_append_drop,
    List.drop_eq_nil_of_le (by rw [List.length_replicate]; omega), List.length_replicate,
    List.nil_append]
  decide

/-- The second forward fill reads the single remaining byte. -/
theorem c1chunk2 : (c1data.drop 8192).take 1 = [1] := by
  rw [c1data, List.drop_append_eq_append_drop,
    List.drop_eq_nil_of_le (by rw [List.length_replicate]; omega), List.length_replicate,
    List.nil_append]
  decide

/-- Forward reference-scan facts on `c1data`. -/
theorem c1f0 : memmemFind [1, 1] (c1data.drop 0) = some 8189 := by
  rw [List.drop_zero]
  show memmemFind.go [1, 1] 0 c1data = some 8189
  rw [c1data, findGo_zeros_then [1, 1, 1, 1] rfl 8189 0]

/-- The reference scan from offset 8191 matches at once. -/
theorem c1f1 : memmemFind [1, 1] (c1data.drop 8191) = some 0 := by
  rw [c1data, List.drop_append_eq_append_drop,
    List.drop_eq_nil_of_le (by rw [List.length_replicate]; omega), List.length_replicate,
    List.nil_append]
  decide

/-- The reference scan from offset 8193 finds nothing. -/
theorem c1f2 : memmemFind [1, 1] (c1data.drop 8193) = none := by
  rw [List.drop_eq_nil_of_le (by rw [c1data_length])]
  decide

/-- The reference search on the C1 input: matches at 8189 and 8191. -/
theorem c1ref : refAllMatches [1, 1] c1data = [8189, 8191] := by
  rw [refAllMatches, c1data_length,
    refFrom_succ_some [1, 1] c1data 8193 0 8189 c1f0,
    show (0 + 8189 : Nat) = 8189 from rfl,
    show (8189 + List.length [1, 1] : Nat) = 8191 from rfl,
    show (8193 : Nat) = 8192 + 1 from rfl,
    refFrom_succ_some [1, 1] c1data 8192 8191 0 c1f1,
    show (8191 + 0 : Nat) = 8191 from rfl,
    show (8191 + List.length [1, 1] : Nat) = 8193 from rfl,
    show (8192 : Nat) = 8191 + 1 from rfl,
    refFrom_succ_none [1, 1] c1data 8191 8193 c1f2]

/-- The forward trace on the C1 input, computed over an abstract stream
satisfying the relevant list facts: the view machine emits `Ok 8189` once
and stops — the straddling match at 8191 is skipped. -/
theorem c1trace_v (data cont1 : List Nat)
    (hdl : data.length = 8193)
    (htake : data.take 8192 = cont1)
    (hlen1 : cont1.length = 8192)
    (hscan1 : memmemFind [1, 1] cont1 = some 8189)
    (hdrop1 : cont1.drop 8190 = [1, 1])
    (hnomid : memmemFind [1, 1] (cont1.drop 8191) = none)
    (hchunk2 : (data.drop 8192).take 1 = [1]) :
    vitemsF 2 ⟨⟨data, 0, []⟩, [1, 1], ⟨8192, [], 2⟩, 0, 0, 0, false⟩ = [.ok 8189] := by
  have hfill1 : BufView.fill ⟨8192, [], 2⟩ ⟨data, 0, []⟩ =
      (.ok true, ⟨8192, cont1, 2⟩, ⟨data, 8192, []⟩, [8192]) := by
    rw [BufView.fill]
    rw [fillAux_cursor_ok _ 8192 2 0 [] data false
      (by simp only [List.length_take, List.length_drop, List.length_nil, Nat.sub_zero]
          omega)
      (by simp only [List.nil_append, List.length_take, List.length_drop,
            List.length_nil, Nat.sub_zero]
          omega)]
    have hminA : min (8192 - List.length ([] : List Nat)) (data.length - 0) = 8192 := by
      simp only [List.length_nil, Nat.sub_zero]
      omega
    rw [hminA, List.drop_zero, htake, List.nil_append, Nat.zero_add, hlen1]
  have hn0 : FindIterV.next ⟨⟨data, 0, []⟩, [1, 1], ⟨8192, [], 2⟩, 0, 0, 0, false⟩ =
      (some (.ok 8189),
       ⟨⟨data, 8192, []⟩, [1, 1], ⟨8192, cont1, 2⟩, 8191, 8191, 8189, false⟩) := by
    rw [FindIterV.next_eq]
    rw [show (∀ x : Nat, x + 2 = x + 1 + 1) from fun x => rfl]
    rw [FindIterV.round_miss_fill_ok _
      ⟨⟨data, 0, []⟩, [1, 1], ⟨8192, [], 2⟩, 0, 0, 0, false⟩
      ⟨⟨data, 0, []⟩, [1, 1], ⟨8192, [], 2⟩, 0, 0, 0, false⟩
      ⟨8192, cont1, 2⟩ ⟨data, 8192, []⟩ [8192] (by norm_num) rfl hfill1]
    simp only []
    rw [FindIterV.round_hit _
      ⟨⟨data, 8192, []⟩, [1, 1], ⟨8192, cont1, 2⟩, 0, 0, 0, false⟩ 8189
      (by rw [if_pos (show (0 : Nat) < cont1.length by omega), List.drop_zero]
          exact hscan1)]
    norm_num
  have hrollC : (⟨⟨data, 8192, []⟩, [1, 1], ⟨8192, cont1, 2⟩, 8191, 8191, 8189, false⟩ :
      FindIterV).consume.rollStep =
      ⟨⟨data, 8192, []⟩, [1, 1], ⟨8192, [1, 1], 2⟩, 2, 8192, 8189, false⟩ := by
    rw [FindIterV.consume, if_pos (show (8191 : Nat) < cont1.length by omega)]
    rw [FindIterV.rollStep]
    simp only [BufView.roll]
    rw [hlen1]
    norm_num [hdrop1]
  have hfill2 : BufView.fill ⟨8192, [1, 1], 2⟩ ⟨data, 8192, []⟩ =
      (.ok true, ⟨8192, [1, 1, 1], 2⟩, ⟨data, 8193, []⟩, [1]) := by
    rw [BufView.fill]
    rw [fillAux_cursor_ok _ 8192 2 8192 [1, 1] data false
      (by simp only [List.length_take, List.length_drop, List.length_cons,
            List.length_nil]
          omega)
      (by simp only [List.length_append, List.length_take, List.length_drop,
            List.length_cons, List.length_nil]
          omega)]
    have hminB : min (8192 - List.length [1, 1]) (data.length - 8192) = 1 := by
      simp only [List.length_cons, List.length_nil]
      omega
    rw [hminB, hchunk2]
    norm_num
  have hfill3 : BufView.fill ⟨8192, [1, 1], 2⟩ ⟨data, 8193, []⟩ =
      (.ok false, ⟨8192, [1, 1], 2⟩, ⟨data, 8193, []⟩, [0]) := by
    rw [BufView.fill]
    rw [fillAux_cursor_eof _ 8192 2 8193 [1, 1] data false
      (by simp only [List.length_take, List.length_drop, List.length_cons,
            List.length_nil]
          omega)]
    have hminC : min (8192 - List.length [1, 1]) (data.length - 8193) = 0 := by
      simp only [List.length_cons, List.length_nil]
      omega
    rw [hminC]
  have hn1 : FindIterV.next
      ⟨⟨data, 8192, []⟩, [1, 1], ⟨8192, cont1, 2⟩, 8191, 8191, 8189, false⟩ =
      (none, ⟨⟨data, 8193, []⟩, [1, 1], ⟨8192, [1, 1], 2⟩, 2, 8193, 8189, false⟩) := by
    rw [FindIterV.next_eq]
    rw [show (∀ x : Nat, x + 2 = x + 1 + 1) from fun x => rfl]
    rw [FindIterV.round_miss_fill_ok _
      ⟨⟨data, 8192, []⟩, [1, 1], ⟨8192, cont1, 2⟩, 8191, 8191, 8189, false⟩
      ⟨⟨data, 8192, []⟩, [1, 1], ⟨8192, [1, 1], 2⟩, 2, 8192, 8189, false⟩
      ⟨8192, [1, 1, 1], 2⟩ ⟨data, 8193, []⟩ [1]
      (by rw [if_pos (show (8191 : Nat) < cont1.length by omega)]
          exact hnomid)
      hrollC hfill2]
    simp only []
    rw [FindIterV.round_miss_fill_none _
      ⟨⟨data, 8193, []⟩, [1, 1], ⟨8192, [1, 1, 1], 2⟩, 2, 8192, 8189, false⟩
      ⟨⟨data, 8193, []⟩, [1, 1], ⟨8192, [1, 1], 2⟩, 2, 8193, 8189, false⟩
      ⟨8192, [1, 1], 2⟩ ⟨data, 8193, []⟩ [0]
      rfl rfl hfill3]
  rw [show (2 : Nat) = 1 + 1 from rfl, vitemsF, hn0]
  simp only []
  nth_rewrite 1 [show (1 : Nat) = 0 + 1 from rfl]
  rw [vitemsF, hn1]

/-- A successful read of at least one byte consumes a script entry or
advances the cursor, so the fill loop's fuel measure strictly decreases. -/
theorem FwdStream.read_measure (s : FwdStream) (free : Nat) (c : List Nat) (s' : FwdStream)
    (h : s.read free = (.ok c, s')) (hc : c.length ≠ 0) :
    s'.script.length + (s'.data.length - s'.pos) <
      s.script.length + (s.data.length - s.pos) := by
  unfold FwdStream.read at h
  rcases hs : s.script with - | ⟨step, rest⟩ <;> simp only [hs] at h
  · rw [Prod.mk.injEq] at h
    obtain ⟨h1, h2⟩ := h
    rw [Except.ok.injEq] at h1
    subst h1 h2
    simp only [List.length_take, List.length_drop] at hc
    simp only [hs, List.length_nil]
    omega
  · cases step with
    | err e =>
      rw [Prod.mk.injEq] at h
      exact absurd h.1 (by simp)
    | cap k =>
      rw [Prod.mk.injEq] at h
      obtain ⟨h1, h2⟩ := h
      rw [Except.ok.injEq] at h1
      subst h1 h2
      simp only [hs, List.length_cons]
      omega

/-- The input/output contract of the fill loop, by induction on the fuel
(the canonical fuel of `Buffer.fill` satisfies the hypothesis): capacity
and `min` are unchanged, well-formedness is preserved, the content end
grows by the total of the logged read counts, the old contents are a
prefix of the new, and an `Ok` result is `false` exactly when nothing was
read, the loop having stopped because the minimum was reached or because
the last read returned zero bytes. -/
theorem Buffer.fillAux_spec (fuel : Nat) (b : Buffer) (s : FwdStream) (ra : Bool)
    (h : b.WF) (hfuel : s.script.length + (s.data.length - s.pos) + 1 ≤ fuel) :
    (Buffer.fillAux fuel b s ra).2.1.buf.length = b.buf.length ∧
    (Buffer.fillAux fuel b s ra).2.1.WF ∧
    (Buffer.fillAux fuel b s ra).2.1.min = b.min ∧
    (Buffer.fillAux fuel b s ra).2.1.endPos =
      b.endPos + (Buffer.fillAux fuel b s ra).2.2.2.sum ∧
    (∃ ext, (Buffer.fillAux fuel b s ra).2.1.buffer = b.buffer ++ ext) ∧
    (∀ res, (Buffer.fillAux fuel b s ra).1 = .ok res →
      ((res = false ↔ ra = false ∧ (Buffer.fillAux fuel b s ra).2.2.2.sum = 0) ∧
       (b.min ≤ (Buffer.fillAux fuel b s ra).2.1.endPos ∨
         (Buffer.fillAux fuel b s ra).2.2.2.getLast? = some 0))) ∧
    (∀ e, (Buffer.fillAux fuel b s ra).1 = .error e →
      ∃ (bmid : Buffer) (smid sfin : FwdStream), smid.read (bmid.buf.length - bmid.endPos) = (.error e, sfin) ∧
        (Buffer.fillAux fuel b s ra).2.1 = bmid ∧
        (Buffer.fillAux fuel b s ra).2.2.1 = sfin) ∧
    (∀ p x q, (Buffer.fillAux fuel b s ra).2.2.2 = p ++ x :: q → ¬ q = [] →
      ¬ x = 0 ∧ b.endPos + (p ++ [x]).sum < b.min) := by
  induction fuel generalizing b s ra with
  | zero => omega
  | succ fuel ih =>
    rw [Buffer.fillAux]
    rcases hr : s.read (b.buf.length - b.endPos) with ⟨res0, s'⟩
    cases res0 with
    | error e =>
      refine ⟨rfl, h, rfl, by simp, ⟨[], by simp⟩, ?_, ?_, ?_⟩
      · intro res hres
        exact absurd hres (by simp)
      · intro e2 he2
        rw [Except.error.injEq] at he2
        subst he2
        exact ⟨b, s, s', hr, rfl, rfl⟩
      · intro p x q hl hq
        exact absurd hl (by simp)
    | ok chunk =>
      obtain ⟨hc, hdata, hpos⟩ := FwdStream.read_ok s _ chunk s' hr
      simp only
      by_cases h0 : chunk.length = 0
      · rw [if_pos h0]
        refine ⟨rfl, h, rfl, by simp, ⟨[], by simp⟩, ?_, ?_, ?_⟩
        · intro res hres
          rw [Except.ok.injEq] at hres
          subst hres
          exact ⟨by cases ra <;> simp, Or.inr rfl⟩
        · intro e2 he2
          exact absurd he2 (by simp)
        · intro p x q hl hq
          have hlen := congrArg List.length hl
          simp only [List.length_cons, List.length_nil, List.length_append] at hlen
          have hq' : 0 < q.length := List.length_pos.mpr hq
          omega
      · rw [if_neg h0]
        obtain ⟨hwv, hwwf⟩ := Buffer.write_view b chunk h hc
        have hwlen : (b.write chunk).buf.length = b.buf.length := by
          simp only [Buffer.write, List.length_append, List.length_take, List.length_drop]
          omega
        have hwbuffer : (b.write chunk).buffer = b.buffer ++ chunk :=
          congrArg BufView.cont hwv
        have hwE : (b.write chunk).endPos = b.endPos + chunk.length := rfl
        have hwm : (b.write chunk).min = b.min := rfl
        by_cases hm : b.min ≤ (b.write chunk).endPos
        · rw [if_pos hm]
          refine ⟨hwlen, hwwf, rfl, by simp [Buffer.write], ⟨chunk, hwbuffer⟩, ?_, ?_, ?_⟩
          · intro res hres
            rw [Except.ok.injEq] at hres
            subst hres
            exact ⟨by simp [h0], Or.inl hm⟩
          · intro e2 he2
            exact absurd he2 (by simp)
          · intro p x q hl hq
            have hlen := congrArg List.length hl
            simp only [List.length_cons, List.length_nil, List.length_append] at hlen
            have hq' : 0 < q.length := List.length_pos.mpr hq
            omega
        · rw [if_neg hm]
          have hfuel' : s'.script.length + (s'.data.length - s'.pos) + 1 ≤ fuel := by
            have := FwdStream.read_measure s _ chunk s' hr h0
            omega
          obtain ⟨ih1, ih2, ih3, ih4, ⟨ext, ih5⟩, ih6, ih7, ih8⟩ :=
            ih (b.write chunk) s' true hwwf hfuel'
          simp only
          refine ⟨ih1.trans hwlen, ih2, ih3, ?_, ⟨chunk ++ ext, ?_⟩, ?_, ?_, ?_⟩
          · rw [List.sum_cons]
            omega
          · rw [ih5, hwbuffer, List.append_assoc]
          · intro res hres
            obtain ⟨ihiff, ihstop⟩ := ih6 res hres
            constructor
            · rw [List.sum_cons]
              refine ⟨fun hf => absurd (ihiff.mp hf).1 (by simp),
                fun hx => absurd hx.2 (by omega)⟩
            · rcases ihstop with hA | hB
              · exact Or.inl hA
              · right
                rcases hlog : (Buffer.fillAux fuel (b.write chunk) s' true).2.2.2
                    with - | ⟨y, l⟩
                · rw [hlog] at hB
                  exact absurd hB (by simp)
                · rw [hlog] at hB
                  rw [List.getLast?_cons_cons]
                  exact hB
          · intro e2 he2
            obtain ⟨bmid, smid, sfin, hread, hb, hs⟩ := ih7 e2 he2
            exact ⟨bmid, smid, sfin, hread, hb, hs⟩
          · intro p x q hl hq
            rcases p with - | ⟨a, p'⟩
            · rw [List.nil_append] at hl
              injection hl with hcx hlog
              subst hcx
              refine ⟨h0, ?_⟩
              simp only [List.nil_append, List.sum_cons, List.sum_nil]
              omega
            · rw [List.cons_append] at hl
              injection hl with hca hrest
              subst hca
              obtain ⟨hx, hbound⟩ := ih8 p' x q hrest hq
              rw [hwE, hwm] at hbound
              refine ⟨hx, ?_⟩
              rw [List.cons_append, List.sum_cons]
              omega

/-!  Claim theorems. -/

/-- Claim C2: the claimed equality between the backward iterator's output
and the reverse of the reference left-to-right search fails on the code
when the stream length exceeds the window capacity.  On an 8193-byte
stream holding `0x07` at offsets 0 and 1 and zeros elsewhere, searched for
the needle `0x07` with full (in-memory) reads, the backward iterator
emits `Ok 1` twice — the match at 0 is misreported as 1 by the
end-of-stream positional correction — while the reverse of the reference
sequence is `[1, 0]`. -/
theorem C2_rfind_iter_not_reverse_of_reference :
    (match FindRevIterS.new ⟨c2data, 0, []⟩ [7] with
     | .ok st => itemsR 4 st
     | .error e => [.error e]) = [.ok 1, .ok 1] ∧
    (refAllMatches [7] c2data).reverse = [1, 0] := by
  constructor
  · rw [FindRevIterS.new_ok c2data 0 [7]]
    simp only []
    rw [itemsR_view 4 _ (BufferRev.new_wf_rev _)]
    have hv : (⟨⟨c2data, c2data.length, []⟩, [7], BufferRev.new (List.length [7]), 0,
        c2data.length, 0, c2data.length, c2data.length⟩ : FindRevIterS).view =
        ⟨⟨c2data, 8193, []⟩, [7], ⟨8192, [], 1⟩, 0, 8193, 0, 8193, 8193⟩ := by
      rw [FindRevIterS.view]
      rw [c2data_length, BufferRev.new_view_rev (List.length [7]) (by norm_num)]
      norm_num
    rw [hv]
    exact c2trace_v c2data c2win c2data_length c2drop c2win_length c2scan c2win_take1
      c2data_take1
  · rw [c2ref]
    rfl

/-- Claim C1: the claimed equivalence between `find_iter` and the
reference non-overlapping left-to-right search fails on the code, even for
a stream materialized fully in memory with full reads.  On the 8193-byte
stream that is zeros followed by `1` at offsets 8189..8192, searched for
the needle `[1,1]`, the iterator reports only the match at 8189 and then
ends, while the reference search finds the non-overlapping matches 8189
and 8191: the match straddling the window-roll boundary is lost in the
roll's retained-suffix-equals-needle skip. -/
theorem C1_find_iter_misses_straddling_match :
    itemsF 2 (FindIterS.new ⟨c1data, 0, []⟩ [1, 1]) = [.ok 8189] ∧
    refAllMatches [1, 1] c1data = [8189, 8191] := by
  constructor
  · rw [itemsF_new 2 _ [1, 1] (by decide)]
    rw [show max 1 (List.length [1, 1]) = 2 from rfl]
    exact c1trace_v c1data c1win c1data_length c1take c1win_length c1scan
      c1win_drop8190 c1win_scan_tail c1chunk2
  · exact c1ref

/-- Claim C9: the search output is not a function of the needle and the
stream's byte content alone.  Two fresh sessions over the same bytes
`[b,a,a,a,a]` with needle `aa` — one reading the whole stream at once, one
reading one byte per call — produce different item sequences, so the
claimed determinism-in-content fails on the code. -/
theorem C9_output_depends_on_read_chunking :
    itemsF 8 (FindIterS.new ⟨[2, 1, 1, 1, 1], 0, []⟩ [1, 1]) = [.ok 1, .ok 3] ∧
    itemsF 8 (FindIterS.new
        ⟨[2, 1, 1, 1, 1], 0, [.cap 1, .cap 1, .cap 1, .cap 1, .cap 1, .cap 1]⟩
        [1, 1]) ≠ [.ok 1, .ok 3] := by
  constructor
  · rw [itemsF_new 8 _ [1, 1] (by decide)]
    decide
  · rw [itemsF_new 8 _ [1, 1] (by decide)]
    decide

/-- The view state reached after the first item of an empty-needle forward
search of the one-byte stream `[9]`: it reproduces itself on every later
call of `next`. -/
def c4fix : FindIterV :=
  ⟨⟨[9], 1, []⟩, [], ⟨8192, [9], 1⟩, 0, 0, 0, false⟩

/-- The empty-needle fixed point: `next` emits `Ok 0` and leaves the state
unchanged. -/
theorem c4fix_step : FindIterV.next c4fix = (some (.ok 0), c4fix) := by decide

/-- Every call of `next` from the fixed point yields another `Ok 0`. -/
theorem c4fix_items (n : Nat) : vitemsF n c4fix = List.replicate n (.ok 0) := by
  induction n with
  | zero => rfl
  | succ n ih =>
    rw [vitemsF, c4fix_step]
    simp only
    rw [ih, List.replicate_succ]

/-- Claim C4: a zero-length needle is not rejected.  Searching the
one-byte stream `[9]` with the empty needle yields the unbounded sequence
`Ok 0, Ok 0, Ok 0, …` — for every `n`, the first `n` items are all `Ok 0`
— and no error item is ever produced, contradicting the claim that the
zero-length needle is reported as an explicit, catchable error. -/
theorem C4_empty_needle_unbounded_matches (n : Nat) :
    itemsF n (FindIterS.new ⟨[9], 0, [.cap 5]⟩ []) = List.replicate n (.ok 0) := by
  rw [itemsF_new n _ [] (by decide)]
  cases n with
  | zero => rfl
  | succ n =>
    rw [vitemsF]
    rw [show FindIterV.next ⟨⟨[9], 0, [.cap 5]⟩, [], ⟨8192, [], max 1 (List.length [])⟩,
      0, 0, 0, false⟩ = (some (.ok 0), c4fix) from by decide]
    simp only
    rw [c4fix_items, List.replicate_succ]

/-- On a fresh forward searcher whose first read fails, `next` yields
exactly that error, the buffer is untouched, and the stream has merely
consumed the failed read: the resulting state is again a fresh searcher
over the remaining script.  No retry happens within the call. -/
theorem FindIterS.next_err_head (needle data : List Nat) (p e : Nat) (rest : List ReadStep) :
    FindIterS.next (FindIterS.new ⟨data, p, .err e :: rest⟩ needle) =
      (some (.error e), FindIterS.new ⟨data, p, rest⟩ needle) := by
  simp only [FindIterS.next, FindIterS.nextAux, FindIterS.new, FindIterS.consume,
    FindIterS.rollStep, Buffer.new, Buffer.fill, Buffer.fillAux, FwdStream.read,
    Buffer.len, Buffer.buffer, Buffer.minBufferLen, List.length_cons,
    lt_self_iff_false, if_false, ite_false]
  rw [if_neg (show ¬ max 1 needle.length ≤ 0 by omega)]

/-- `consume` never touches the reader. -/
theorem FindRevIterS.consume_rdr (st : FindRevIterS) : st.consume.rdr = st.rdr := by
  rw [FindRevIterS.consume]
  split <;> rfl

/-- `consume` never touches `seek_pos`. -/
theorem FindRevIterS.consume_seekPos (st : FindRevIterS) :
    st.consume.seekPos = st.seekPos := by
  rw [FindRevIterS.consume]
  split <;> rfl

/-- The roll step never touches the reader. -/
theorem FindRevIterS.rollStep_rdr (st : FindRevIterS) : st.rollStep.rdr = st.rdr := by
  rw [FindRevIterS.rollStep]
  split
  · simp only []
    split <;> rfl
  · rfl

/-- Forward iterator: whenever the unscanned region holds no occurrence
and the fill performed by a call of `next` fails — from any iterator
state, so at any point of a session — the call returns exactly that one
error item, with the buffer and reader exactly as the failing fill left
them: no retry. -/
theorem FindIterS.next_fill_err (st : FindIterS) (e : Nat) (b' : Buffer)
    (s' : FwdStream) (lg : List Nat)
    (hscan : st.searchPos < st.buf.len →
      memmemFind st.needle (st.buf.buffer.drop st.searchPos) = none)
    (hfill : Buffer.fill st.consume.rollStep.buf st.consume.rollStep.rdr =
      (.error e, b', s', lg)) :
    FindIterS.next st =
      (some (.error e), { st.consume.rollStep with buf := b', rdr := s' }) := by
  rw [FindIterS.next]
  rw [show (∀ x : Nat, x + 2 = x + 1 + 1) from fun x => rfl]
  rw [FindIterS.nextAux]
  have hscan' : (if st.searchPos < st.buf.len then
      memmemFind st.needle (st.buf.buffer.drop st.searchPos) else none) = none := by
    by_cases hc : st.searchPos < st.buf.len
    · rw [if_pos hc]
      exact hscan hc
    · rw [if_neg hc]
  rw [hscan']
  simp only [hfill]

/-- Backward iterator: whenever the unscanned region holds no occurrence,
the stream is not exhausted, and the seek performed by a call of `next`
fails — from any iterator state — the call yields exactly that one error
item. -/
theorem FindRevIterS.next_seek_err (st : FindRevIterS) (e : Nat)
    (rest : List (Option Nat))
    (hscan : st.searchPos < st.buf.len →
      memmemRfind st.needle (st.buf.buffer.take (st.buf.len - st.searchPos)) = none)
    (hseek : ¬ st.seekPos = 0)
    (hops : st.rdr.ops = some e :: rest) :
    (FindRevIterS.next st).1 = some (.error e) := by
  rw [FindRevIterS.next]
  rw [show (∀ x : Nat, x + 4 = x + 3 + 1) from fun x => rfl]
  rw [FindRevIterS.nextAux]
  have hscan' : (if st.searchPos < st.buf.len then
      memmemRfind st.needle (st.buf.buffer.take (st.buf.len - st.searchPos))
    else none) = none := by
    by_cases hc : st.searchPos < st.buf.len
    · rw [if_pos hc]
      exact hscan hc
    · rw [if_neg hc]
  rw [hscan']
  simp only []
  rw [FindRevIterS.consume_seekPos, if_neg hseek]
  simp only [FindRevIterS.rollStep_rdr, FindRevIterS.consume_rdr, BwdStream.seekTo,
    BwdStream.op, hops]

/-- Backward iterator: whenever the unscanned region holds no occurrence,
the stream is not exhausted, the seek succeeds and the subsequent
`read_exact` fails — from any iterator state — the call yields exactly
that one error item. -/
theorem FindRevIterS.next_read_err (st : FindRevIterS) (e : Nat)
    (rest : List (Option Nat))
    (hscan : st.searchPos < st.buf.len →
      memmemRfind st.needle (st.buf.buffer.take (st.buf.len - st.searchPos)) = none)
    (hseek : ¬ st.seekPos = 0)
    (hops : st.rdr.ops = none :: some e :: rest) :
    (FindRevIterS.next st).1 = some (.error e) := by
  rw [FindRevIterS.next]
  rw [show (∀ x : Nat, x + 4 = x + 3 + 1) from fun x => rfl]
  rw [FindRevIterS.nextAux]
  have hscan' : (if st.searchPos < st.buf.len then
      memmemRfind st.needle (st.buf.buffer.take (st.buf.len - st.searchPos))
    else none) = none := by
    by_cases hc : st.searchPos < st.buf.len
    · rw [if_pos hc]
      exact hscan hc
    · rw [if_neg hc]
  rw [hscan']
  simp only []
  rw [FindRevIterS.consume_seekPos, if_neg hseek]
  simp only [FindRevIterS.rollStep_rdr, FindRevIterS.consume_rdr, BwdStream.seekTo,
    BwdStream.op, BufferRev.fillExact, hops]

/-- Claim C3 (amended): if an I/O failure occurs during a call to `next`
— forward or backward, from any iterator state of a session, whether a
read or a seek fails — that call yields exactly one `Err` item carrying
the failure, returned as soon as the failing operation reports it, with
no retry inside the call; a failure while constructing the backward
iterator surfaces as the construction's single error.  The iterator is
not fused: a subsequent call runs the loop anew and can yield further
items — in particular, consecutive failing reads yield one `Err` item per
call. -/
theorem C3_one_error_per_failed_call :
    (∀ (st : FindIterS) (e : Nat) (b' : Buffer) (s' : FwdStream) (lg : List Nat),
      (st.searchPos < st.buf.len →
        memmemFind st.needle (st.buf.buffer.drop st.searchPos) = none) →
      Buffer.fill st.consume.rollStep.buf st.consume.rollStep.rdr =
        (.error e, b', s', lg) →
      FindIterS.next st =
        (some (.error e), { st.consume.rollStep with buf := b', rdr := s' })) ∧
    (∀ (needle d : List Nat) (p e : Nat) (ops : List (Option Nat)),
      FindRevIterS.new ⟨d, p, some e :: ops⟩ needle = .error e) ∧
    (∀ (st : FindRevIterS) (e : Nat) (rest : List (Option Nat)),
      (st.searchPos < st.buf.len →
        memmemRfind st.needle (st.buf.buffer.take (st.buf.len - st.searchPos)) =
          none) →
      ¬ st.seekPos = 0 → st.rdr.ops = some e :: rest →
      (FindRevIterS.next st).1 = some (.error e)) ∧
    (∀ (st : FindRevIterS) (e : Nat) (rest : List (Option Nat)),
      (st.searchPos < st.buf.len →
        memmemRfind st.needle (st.buf.buffer.take (st.buf.len - st.searchPos)) =
          none) →
      ¬ st.seekPos = 0 → st.rdr.ops = none :: some e :: rest →
      (FindRevIterS.next st).1 = some (.error e)) ∧
    (∀ (needle data : List Nat) (e₁ e₂ : Nat),
      itemsF 2 (FindIterS.new ⟨data, 0, [.err e₁, .err e₂]⟩ needle) =
        [.error e₁, .error e₂]) := by
  refine ⟨FindIterS.next_fill_err, fun needle d p e ops => rfl,
    FindRevIterS.next_seek_err, FindRevIterS.next_read_err, ?_⟩
  intro needle data e₁ e₂
  rw [itemsF, FindIterS.next_err_head needle data 0 e₁ [.err e₂]]
  simp only
  rw [itemsF, FindIterS.next_err_head needle data 0 e₂ []]
  rfl


/-- Claim C3 (counterexample): the claim that after one error item no
further items are produced is false at a concrete input: with needle `[1]`
over the stream `[5,5,5]` whose reads fail with error 3 and then error 4,
the second call of `next` produces a second error item rather than
nothing. -/
theorem C3_counterexample_two_error_items :
    itemsF 2 (FindIterS.new ⟨[5, 5, 5], 0, [.err 3, .err 4]⟩ [1]) =
      [.error 3, .error 4] ∧ ([.error 3, .error 4] : List (Except Nat Nat)) ≠ [.error 3] := by
  refine ⟨?_, by decide⟩
  rw [itemsF_new 2 _ [1] (by decide)]
  decide

/-- Claim C5: the contract of `Buffer::fill` holds.  The capacity is
unchanged and the storage stays well-formed; the content end grows by the
total of the completed reads' byte counts and the old contents are a
prefix of the new; an `Ok` result is `false` exactly when nothing was
read during this call, and the loop stopped either because the minimum
was reached or because the last read returned zero bytes; an error of the
first read is returned at once with the buffer untouched; any read error,
at whatever iteration of the loop, is propagated immediately: the call
returns the buffer and stream exactly as they were at the failing read,
with no retry and no further I/O; and the loop is prompt: every read it
performed other than the last obtained at least one byte while the
window was still below the minimum (so the loop never continued past a
zero-byte read or past reaching the minimum). -/
theorem C5_fill_contract (b : Buffer) (s : FwdStream) (h : b.WF) :
    ((Buffer.fill b s).2.1.buf.length = b.buf.length ∧ (Buffer.fill b s).2.1.WF) ∧
    (Buffer.fill b s).2.1.len = b.len + (Buffer.fill b s).2.2.2.sum ∧
    (∃ ext, (Buffer.fill b s).2.1.buffer = b.buffer ++ ext) ∧
    (∀ res, (Buffer.fill b s).1 = .ok res →
      ((res = false ↔ (Buffer.fill b s).2.1.len = b.len) ∧
       (b.minBufferLen ≤ (Buffer.fill b s).2.1.len ∨
         (Buffer.fill b s).2.2.2.getLast? = some 0))) ∧
    (∀ e s', s.read (b.buf.length - b.endPos) = (.error e, s') →
      Buffer.fill b s = (.error e, b, s', [])) ∧
    (∀ e, (Buffer.fill b s).1 = .error e →
      ∃ (bmid : Buffer) (smid sfin : FwdStream), smid.read (bmid.buf.length - bmid.endPos) = (.error e, sfin) ∧
        (Buffer.fill b s).2.1 = bmid ∧ (Buffer.fill b s).2.2.1 = sfin) ∧
    (∀ p x q, (Buffer.fill b s).2.2.2 = p ++ x :: q → ¬ q = [] →
      ¬ x = 0 ∧ b.len + (p ++ [x]).sum < b.minBufferLen) := by
  obtain ⟨h1, h2, -, h4, h5, h6, h7, h8⟩ :=
    Buffer.fillAux_spec (s.script.length + (s.data.length - s.pos) + 1) b s false h
      (le_refl _)
  simp only [Buffer.fill, Buffer.len, Buffer.minBufferLen]
  refine ⟨⟨h1, h2⟩, h4, h5, ?_, ?_, h7, h8⟩
  · intro res hres
    obtain ⟨hiff, hstop⟩ := h6 res hres
    refine ⟨?_, hstop⟩
    constructor
    · intro hf
      have hsum := (hiff.mp hf).2
      omega
    · intro hl
      refine hiff.mpr ⟨rfl, ?_⟩
      omega
  · intro e s' hread
    rw [Buffer.fillAux, hread]

/-- Witness for C5 at a concrete window and stream. -/
theorem C5_fill_contract_witness :
    (⟨[0, 0, 0, 0], 2, 0⟩ : Buffer).WF ∧
    (((Buffer.fill ⟨[0, 0, 0, 0], 2, 0⟩ ⟨[9, 8, 7], 0, []⟩).2.1.buf.length =
        (⟨[0, 0, 0, 0], 2, 0⟩ : Buffer).buf.length ∧
      (Buffer.fill ⟨[0, 0, 0, 0], 2, 0⟩ ⟨[9, 8, 7], 0, []⟩).2.1.WF) ∧
    (Buffer.fill ⟨[0, 0, 0, 0], 2, 0⟩ ⟨[9, 8, 7], 0, []⟩).2.1.len =
      (⟨[0, 0, 0, 0], 2, 0⟩ : Buffer).len +
        (Buffer.fill ⟨[0, 0, 0, 0], 2, 0⟩ ⟨[9, 8, 7], 0, []⟩).2.2.2.sum ∧
    (∃ ext, (Buffer.fill ⟨[0, 0, 0, 0], 2, 0⟩ ⟨[9, 8, 7], 0, []⟩).2.1.buffer =
      (⟨[0, 0, 0, 0], 2, 0⟩ : Buffer).buffer ++ ext) ∧
    (∀ res, (Buffer.fill ⟨[0, 0, 0, 0], 2, 0⟩ ⟨[9, 8, 7], 0, []⟩).1 = .ok res →
      ((res = false ↔
          (Buffer.fill ⟨[0, 0, 0, 0], 2, 0⟩ ⟨[9, 8, 7], 0, []⟩).2.1.len =
            (⟨[0, 0, 0, 0], 2, 0⟩ : Buffer).len) ∧
       ((⟨[0, 0, 0, 0], 2, 0⟩ : Buffer).minBufferLen ≤
          (Buffer.fill ⟨[0, 0, 0, 0], 2, 0⟩ ⟨[9, 8, 7], 0, []⟩).2.1.len ∨
         (Buffer.fill ⟨[0, 0, 0, 0], 2, 0⟩ ⟨[9, 8, 7], 0, []⟩).2.2.2.getLast? =
           some 0))) ∧
    (∀ e s', (⟨[9, 8, 7], 0, []⟩ : FwdStream).read
        ((⟨[0, 0, 0, 0], 2, 0⟩ : Buffer).buf.length -
          (⟨[0, 0, 0, 0], 2, 0⟩ : Buffer).endPos) = (.error e, s') →
      Buffer.fill ⟨[0, 0, 0, 0], 2, 0⟩ ⟨[9, 8, 7], 0, []⟩ = (.error e, ⟨[0, 0, 0, 0], 2, 0⟩, s', [])) ∧
    (∀ e, (Buffer.fill ⟨[0, 0, 0, 0], 2, 0⟩ ⟨[9, 8, 7], 0, []⟩).1 = .error e →
      ∃ (bmid : Buffer) (smid sfin : FwdStream),
        smid.read (bmid.buf.length - bmid.endPos) = (.error e, sfin) ∧
        (Buffer.fill ⟨[0, 0, 0, 0], 2, 0⟩ ⟨[9, 8, 7], 0, []⟩).2.1 = bmid ∧
        (Buffer.fill ⟨[0, 0, 0, 0], 2, 0⟩ ⟨[9, 8, 7], 0, []⟩).2.2.1 = sfin) ∧
    (∀ p x q, (Buffer.fill ⟨[0, 0, 0, 0], 2, 0⟩ ⟨[9, 8, 7], 0, []⟩).2.2.2 = p ++ x :: q →
      ¬ q = [] →
      ¬ x = 0 ∧ (⟨[0, 0, 0, 0], 2, 0⟩ : Buffer).len + (p ++ [x]).sum <
        (⟨[0, 0, 0, 0], 2, 0⟩ : Buffer).minBufferLen)) :=
  ⟨by decide, C5_fill_contract ⟨[0, 0, 0, 0], 2, 0⟩ ⟨[9, 8, 7], 0, []⟩ (by decide)⟩

/-- Claim C6: the contract of `Buffer::roll` holds under its guarded
precondition `min ≤ end`: the new contents are exactly the last `min`
bytes of the old contents, they sit at the front of the storage, the
content end becomes `min`, and capacity and `min` are unchanged. -/
theorem C6_roll_contract (b : Buffer) (h : b.WF) (hm : b.min ≤ b.endPos) :
    (Buffer.roll b).buffer = b.buffer.drop (b.buffer.length - b.minBufferLen) ∧
    (Buffer.roll b).len = b.minBufferLen ∧
    (Buffer.roll b).buf.take b.minBufferLen =
      b.buffer.drop (b.buffer.length - b.minBufferLen) ∧
    (Buffer.roll b).buf.length = b.buf.length ∧
    (Buffer.roll b).minBufferLen = b.minBufferLen := by
  have h' : b.endPos ≤ b.buf.length := h
  have hs : ((b.buf.take b.endPos).drop (b.endPos - b.min)).length = b.min := by
    simp only [List.length_drop, List.length_take]
    omega
  have hlen : (Buffer.roll b).buf.length = b.buf.length := by
    simp only [Buffer.roll, List.length_append, List.length_drop, hs]
    omega
  have hbuffer : (Buffer.roll b).buffer = b.buffer.drop (b.buffer.length - b.min) := by
    simp only [Buffer.roll, Buffer.buffer, Buffer.length_buffer b h]
    rw [List.take_left' hs]
    congr 1
    simp only [List.length_take]
    omega
  have hfront : (Buffer.roll b).buf.take b.min =
      b.buffer.drop (b.buffer.length - b.min) := by
    show ((b.buf.take b.endPos).drop (b.endPos - b.min) ++ _).take b.min = _
    rw [List.take_left' hs, Buffer.length_buffer b h]
    show _ = (b.buf.take b.endPos).drop (b.endPos - b.min)
    rfl
  exact ⟨hbuffer, rfl, hfront, hlen, rfl⟩

/-- Witness for C6 at a concrete window. -/
theorem C6_roll_contract_witness :
    ((⟨[1, 2, 3, 4, 5], 2, 4⟩ : Buffer).WF ∧
      (⟨[1, 2, 3, 4, 5], 2, 4⟩ : Buffer).min ≤ (⟨[1, 2, 3, 4, 5], 2, 4⟩ : Buffer).endPos) ∧
    ((Buffer.roll ⟨[1, 2, 3, 4, 5], 2, 4⟩).buffer =
      (⟨[1, 2, 3, 4, 5], 2, 4⟩ : Buffer).buffer.drop
        ((⟨[1, 2, 3, 4, 5], 2, 4⟩ : Buffer).buffer.length -
          (⟨[1, 2, 3, 4, 5], 2, 4⟩ : Buffer).minBufferLen) ∧
    (Buffer.roll ⟨[1, 2, 3, 4, 5], 2, 4⟩).len =
      (⟨[1, 2, 3, 4, 5], 2, 4⟩ : Buffer).minBufferLen ∧
    (Buffer.roll ⟨[1, 2, 3, 4, 5], 2, 4⟩).buf.take
        (⟨[1, 2, 3, 4, 5], 2, 4⟩ : Buffer).minBufferLen =
      (⟨[1, 2, 3, 4, 5], 2, 4⟩ : Buffer).buffer.drop
        ((⟨[1, 2, 3, 4, 5], 2, 4⟩ : Buffer).buffer.length -
          (⟨[1, 2, 3, 4, 5], 2, 4⟩ : Buffer).minBufferLen) ∧
    (Buffer.roll ⟨[1, 2, 3, 4, 5], 2, 4⟩).buf.length =
      (⟨[1, 2, 3, 4, 5], 2, 4⟩ : Buffer).buf.length ∧
    (Buffer.roll ⟨[1, 2, 3, 4, 5], 2, 4⟩).minBufferLen =
      (⟨[1, 2, 3, 4, 5], 2, 4⟩ : Buffer).minBufferLen) :=
  ⟨⟨by decide, by decide⟩, C6_roll_contract ⟨[1, 2, 3, 4, 5], 2, 4⟩ (by decide) (by decide)⟩

/-- Claim C7: for a needle of length at least 1, both constructors choose
the capacity `max (needle.len() * 8) 8192`, and no buffer operation ever
changes the capacity (for the fallible fills, under the storage invariant
and the free-capacity bound their callers guarantee). -/
theorem C7_capacity_policy (n : Nat) (hn : 1 ≤ n) :
    (Buffer.new n).buf.length = max (n * 8) 8192 ∧
    (BufferRev.new n).capacity = max (n * 8) 8192 ∧
    (∀ (b : Buffer) (s : FwdStream), b.WF →
      (Buffer.fill b s).2.1.buf.length = b.buf.length) ∧
    (∀ b : Buffer, (Buffer.roll b).buf.length = b.buf.length) ∧
    (∀ (b : BufferRev) (s : BwdStream) (amount : Nat), b.WF →
      amount ≤ b.buf.length - b.endPos →
      (b.fillExact s amount).2.1.capacity = b.capacity) ∧
    (∀ b : BufferRev, (BufferRev.rollRight b).capacity = b.capacity) := by
  refine ⟨?_, ?_, ?_, ?_, ?_, ?_⟩
  · simp only [Buffer.new, List.length_replicate]
    rw [default_capacity_eq]
    omega
  · simp only [BufferRev.new, BufferRev.capacity, List.length_replicate]
    rw [default_capacity_eq]
    omega
  · intro b s h
    exact (Buffer.fillAux_spec (s.script.length + (s.data.length - s.pos) + 1) b s
      false h (le_refl _)).1
  · intro b
    simp only [Buffer.roll, List.length_append, List.length_drop, List.length_take]
    omega
  · intro b s amount h ha
    have h' : b.endPos ≤ b.buf.length := h
    rw [BufferRev.fillExact]
    rcases s.op with ⟨o, s'⟩
    cases o with
    | some e => rfl
    | none =>
      simp only
      by_cases hrem : amount ≤ s'.data.length - s'.pos
      · rw [if_pos hrem]
        show (b.write _).buf.length = b.buf.length
        have hclen : ((s'.data.drop s'.pos).take amount).length = amount := by
          simp only [List.length_take, List.length_drop]
          omega
        simp only [BufferRev.write, List.length_append, List.length_take,
          List.length_drop, hclen]
        omega
      · rw [if_neg hrem]
        show (b.writeLow _ _).buf.length = b.buf.length
        have hglen : ((s'.data.drop s'.pos).take (s'.data.length - s'.pos)).length =
            s'.data.length - s'.pos := by
          simp only [List.length_take, List.length_drop]
          omega
        simp only [BufferRev.writeLow, List.length_append, List.length_take,
          List.length_drop, hglen]
        omega
  · intro b
    simp only [BufferRev.rollRight, BufferRev.capacity, List.length_append,
      List.length_take, List.length_drop]
    omega

/-- Witness for C7 at needle length 2. -/
theorem C7_capacity_policy_witness :
    1 ≤ 2 ∧
    ((Buffer.new 2).buf.length = max (2 * 8) 8192 ∧
    (BufferRev.new 2).capacity = max (2 * 8) 8192 ∧
    (∀ (b : Buffer) (s : FwdStream), b.WF →
      (Buffer.fill b s).2.1.buf.length = b.buf.length) ∧
    (∀ b : Buffer, (Buffer.roll b).buf.length = b.buf.length) ∧
    (∀ (b : BufferRev) (s : BwdStream) (amount : Nat), b.WF →
      amount ≤ b.buf.length - b.endPos →
      (b.fillExact s amount).2.1.capacity = b.capacity) ∧
    (∀ b : BufferRev, (BufferRev.rollRight b).capacity = b.capacity)) :=
  ⟨by decide, C7_capacity_policy 2 (by decide)⟩

/-- Claim C8: `find` yields exactly the first item of the forward
iterator's output, and `rfind` yields exactly the first item of the
backward iterator's output, a failed backward initialization becoming a
single error item. -/
theorem C8_find_rfind_first_item (needle : List Nat) (rdr : FwdStream)
    (rdrR : BwdStream) (n : Nat) :
    find needle rdr = (itemsF (n + 1) (FindIterS.new rdr needle)).head? ∧
    rfind needle rdrR = (match FindRevIterS.new rdrR needle with
      | .ok st => (itemsR (n + 1) st).head?
      | .error e => some (.error e)) := by
  constructor
  · rw [find, itemsF]
    rcases FindIterS.next (FindIterS.new rdr needle) with ⟨ox, st'⟩
    cases ox <;> rfl
  · rw [rfind]
    rcases FindRevIterS.new rdrR needle with e | st
    · rfl
    · simp only []
      rw [itemsR]
      rcases FindRevIterS.next st with ⟨ox, st'⟩
      cases ox <;> rfl

/-- Claim C10: the contract of `BufferRev::fill_exact` holds under the
storage invariant and the free-capacity bound its caller guarantees: on an
error the window is exactly unchanged; on `Ok false` the visible contents
and the filled length are unchanged; on `Ok true` the filled length grows
by exactly the requested amount and the contents gain a chunk of that
length in front. -/
theorem C10_fill_exact_contract (b : BufferRev) (s : BwdStream) (amount : Nat)
    (h : b.WF) (ha : amount ≤ b.buf.length - b.endPos) :
    (∀ e, (b.fillExact s amount).1 = .error e → (b.fillExact s amount).2.1 = b) ∧
    ((b.fillExact s amount).1 = .ok false →
      (b.fillExact s amount).2.1.buffer = b.buffer ∧
      (b.fillExact s amount).2.1.len = b.len) ∧
    ((b.fillExact s amount).1 = .ok true →
      (b.fillExact s amount).2.1.len = b.len + amount ∧
      ∃ chunk, chunk.length = amount ∧
        (b.fillExact s amount).2.1.buffer = chunk ++ b.buffer) := by
  rw [BufferRev.fillExact]
  rcases s.op with ⟨o, s'⟩
  cases o with
  | some e =>
    refine ⟨fun e27 h27 => rfl, ?_, ?_⟩ <;> intro hres <;> exact absurd hres (by simp)
  | none =>
    simp only
    by_cases hrem : amount ≤ s'.data.length - s'.pos
    · rw [if_pos hrem]
      have hclen : ((s'.data.drop s'.pos).take amount).length = amount := by
        simp only [List.length_take, List.length_drop]
        omega
      obtain ⟨hwv, hwwf⟩ := BufferRev.write_view_rev b ((s'.data.drop s'.pos).take amount) h
        (by rw [hclen]; exact ha)
      refine ⟨?_, ?_, ?_⟩
      · intro e he
        exact absurd he (by simp)
      · intro hres
        exact absurd hres (by simp)
      · intro hres
        refine ⟨?_, ⟨(s'.data.drop s'.pos).take amount, hclen, ?_⟩⟩
        · show b.endPos + ((s'.data.drop s'.pos).take amount).length = b.endPos + amount
          rw [hclen]
        · exact congrArg BufRevView.cont hwv
    · rw [if_neg hrem]
      have hglen : ((s'.data.drop s'.pos).take (s'.data.length - s'.pos)).length ≤
          amount := by
        simp only [List.length_take, List.length_drop]
        omega
      obtain ⟨hwv, hwwf⟩ := BufferRev.writeLow_view b amount
        ((s'.data.drop s'.pos).take (s'.data.length - s'.pos)) h ha hglen
      refine ⟨?_, ?_, ?_⟩
      · intro e he
        exact absurd he (by simp)
      · intro hres
        exact ⟨congrArg BufRevView.cont hwv, rfl⟩
      · intro hres
        exact absurd hres (by simp)

/-- Witness for C10 at a concrete window, stream and amount. -/
theorem C10_fill_exact_contract_witness :
    ((⟨[0, 0, 0, 0], 1, 1⟩ : BufferRev).WF ∧
      2 ≤ (⟨[0, 0, 0, 0], 1, 1⟩ : BufferRev).buf.length -
        (⟨[0, 0, 0, 0], 1, 1⟩ : BufferRev).endPos) ∧
    ((∀ e, (BufferRev.fillExact ⟨[0, 0, 0, 0], 1, 1⟩ ⟨[5, 6], 0, []⟩ 2).1 = .error e →
      (BufferRev.fillExact ⟨[0, 0, 0, 0], 1, 1⟩ ⟨[5, 6], 0, []⟩ 2).2.1 =
        ⟨[0, 0, 0, 0], 1, 1⟩) ∧
    ((BufferRev.fillExact ⟨[0, 0, 0, 0], 1, 1⟩ ⟨[5, 6], 0, []⟩ 2).1 = .ok false →
      (BufferRev.fillExact ⟨[0, 0, 0, 0], 1, 1⟩ ⟨[5, 6], 0, []⟩ 2).2.1.buffer =
        (⟨[0, 0, 0, 0], 1, 1⟩ : BufferRev).buffer ∧
      (BufferRev.fillExact ⟨[0, 0, 0, 0], 1, 1⟩ ⟨[5, 6], 0, []⟩ 2).2.1.len =
        (⟨[0, 0, 0, 0], 1, 1⟩ : BufferRev).len) ∧
    ((BufferRev.fillExact ⟨[0, 0, 0, 0], 1, 1⟩ ⟨[5, 6], 0, []⟩ 2).1 = .ok true →
      (BufferRev.fillExact ⟨[0, 0, 0, 0], 1, 1⟩ ⟨[5, 6], 0, []⟩ 2).2.1.len =
        (⟨[0, 0, 0, 0], 1, 1⟩ : BufferRev).len + 2 ∧
      ∃ chunk, chunk.length = 2 ∧
        (BufferRev.fillExact ⟨[0, 0, 0, 0], 1, 1⟩ ⟨[5, 6], 0, []⟩ 2).2.1.buffer =
          chunk ++ (⟨[0, 0, 0, 0], 1, 1⟩ : BufferRev).buffer)) :=
  ⟨⟨by decide, by decide⟩,
    C10_fill_exact_contract ⟨[0, 0, 0, 0], 1, 1⟩ ⟨[5, 6], 0, []⟩ 2 (by decide) (by decide)⟩

end XFind
